import Mathlib

/-!
Verification development for the duplicate-removal engine in
`src/duplicados_ultra_optimizado.py`.

The program reads a spreadsheet into a pandas DataFrame, fuzzily resolves an
identity column and (optionally) a date column by header name, parses the date
column (`pd.to_datetime(..., errors='coerce')`, unparseable cells become NaT),
stably sorts by (identity ascending, date descending, missing values last),
drops duplicate identities keeping the first row, and reports statistics.

Modelling conventions:
* A cell is a string, a parsed timestamp (naive timestamps are modelled as
  integers, compared only for relative order), or a missing value (NaN/NaT).
* The date parser of `pd.to_datetime` is an abstract parameter
  `parse : String → Option Int`; a cell that is already a timestamp parses to
  itself and a missing cell stays missing, exactly as `errors='coerce'` does.
* pandas' multi-column `sort_values` is a stable sort by the lexicographic
  comparison of the two keys with `na_position='last'` applied to each key;
  it is modelled with Mathlib's stable `List.insertionSort`.
* Column access `df[c]` uses the first column labelled `c`; labels are unique
  in the documented data model.  A column of mixed value types (which pandas
  would refuse to sort) is given an arbitrary total order, string cells before
  timestamp cells; no theorem depends on that arbitrary part.
* `str.strip()`/`str.lower()` are modelled on the ASCII range, which covers
  every candidate name the program uses.
-/

/-- `nombre.strip().lower()` from the source (line 36): drop surrounding
whitespace, then lower-case. -/
def normalizar_nombre_columna (nombre : String) : String :=
  ⟨(((nombre.data.dropWhile Char.isWhitespace).reverse.dropWhile
      Char.isWhitespace).reverse).map Char.toLower⟩

/-- Python's substring test `sub in s` (contiguous substring, the empty string
is a substring of everything). -/
def contiene (s sub : String) : Bool :=
  s.data.tails.any (fun t => sub.data.isPrefixOf t)

/-- Python's `s.replace(' ', '')`: remove every space character. -/
def sinEspacios (s : String) : String :=
  ⟨s.data.filter (fun c => !(c == ' '))⟩

/-- The flexible comparison of one normalised column label against one
normalised candidate name (source lines 45-47): candidate contained in label,
or label contained in candidate, or equality after removing spaces. -/
def coincideFlexible (colNorm posibleNorm : String) : Bool :=
  contiene colNorm posibleNorm || contiene posibleNorm colNorm ||
    (sinEspacios posibleNorm == sinEspacios colNorm)

/-- The inner `for posible in nombres_posibles` loop of `buscar_columna`
(source lines 42-48): does this column label match any candidate? -/
def coincideAlguno (nombresPosibles : List String) (col : String) : Bool :=
  nombresPosibles.any fun posible =>
    coincideFlexible (normalizar_nombre_columna col)
      (normalizar_nombre_columna posible)

/-- `buscar_columna` (source lines 38-49): scan the columns left to right and
return the first whose normalised label matches some candidate, else `None`. -/
def buscar_columna (columnas : List String) (nombresPosibles : List String) :
    Option String :=
  match columnas with
  | [] => none
  | col :: resto =>
    if coincideAlguno nombresPosibles col then some col
    else buscar_columna resto nombresPosibles

/-- A cell value: a string, a parsed naive timestamp, or missing (NaN/NaT). -/
inductive Cell where
  | str (s : String)
  | ts (t : Int)
  | na
deriving DecidableEq, Repr

/-- A table: ordered column labels and ordered rows; a row lists its cells in
column order. -/
structure DataFrame where
  cols : List String
  rows : List (List Cell)
deriving DecidableEq, Repr

/-- `df[c]` for a row: the cell under the first column labelled `c`
(missing column or short row reads as a missing value). -/
def getCell (cols : List String) (fila : List Cell) (c : String) : Cell :=
  match cols.findIdx? (fun x => x == c) with
  | some i => fila.getD i Cell.na
  | none => Cell.na

/-- The identity cell of a row, read from the working column `doc_id`. -/
def docDe (cols : List String) (fila : List Cell) : Cell :=
  getCell cols fila "doc_id"

/-- The identity candidate set (source lines 73-76). -/
def nombresDocumento : List String :=
  ["docto ident", "documento identidad", "docto_ident",
   "documento", "cedula", "dni", "id", "identificacion"]

/-- The date candidate set (source lines 78-81). -/
def nombresFecha : List String :=
  ["f ingreso", "fecha ingreso", "f_ingreso",
   "fecha_ingreso", "fecha", "date", "ingreso"]

/-- `pd.to_datetime(value, errors='coerce')` on one cell, over an abstract
string parser: strings go through the parser, timestamps stay themselves,
missing values stay missing. -/
def to_datetime (parse : String → Option Int) : Cell → Option Int
  | .str s => parse s
  | .ts t => some t
  | .na => none

/-- `df['fecha'] = pd.to_datetime(df['fecha'], errors='coerce')` applied to one
row (source line 111): replace the cell of the first `fecha` column by its
parsed timestamp, or by a missing value when it does not parse. -/
def coerceFecha (parse : String → Option Int) (cols : List String)
    (fila : List Cell) : List Cell :=
  match cols.findIdx? (fun x => x == "fecha") with
  | some i =>
      fila.set i
        (match to_datetime parse (fila.getD i Cell.na) with
         | some t => Cell.ts t
         | none => Cell.na)
  | none => fila

/-- Lexicographic code-point comparison of character lists: Python's string
order, executable in the kernel. -/
def leChars : List Char → List Char → Bool
  | [], _ => true
  | _ :: _, [] => false
  | a :: as, b :: bs =>
    if a.toNat < b.toNat then true
    else if b.toNat < a.toNat then false
    else leChars as bs

/-- Rank used to compare identity cells ascending with missing values last
(`na_position='last'`): values first, missing greatest. -/
def cellRank : Cell → Nat
  | .str _ => 0
  | .ts _ => 1
  | .na => 2

/-- Ascending comparison of identity key cells, missing values last. -/
def cellLe (a b : Cell) : Bool :=
  match a, b with
  | .str x, .str y => leChars x.data y.data
  | .ts x, .ts y => decide (x ≤ y)
  | a, b => decide (cellRank a ≤ cellRank b)

/-- Rank for the date key: parsed timestamps first, missing values last. -/
def fechaRank : Cell → Nat
  | .ts _ => 0
  | .str _ => 1
  | .na => 2

/-- Descending comparison of date cells with missing values last
(`ascending=False, na_position='last'`). -/
def fechaDescLe (a b : Cell) : Bool :=
  match a, b with
  | .ts x, .ts y => decide (y ≤ x)
  | .str x, .str y => leChars x.data y.data
  | a, b => decide (fechaRank a ≤ fechaRank b)

/-- The lexicographic sort key of `df.sort_values(['doc_id', 'fecha'],
ascending=[True, False], na_position='last')` (source lines 115-119). -/
def filaLe (cols : List String) (f1 f2 : List Cell) : Bool :=
  if docDe cols f1 = docDe cols f2 then
    fechaDescLe (getCell cols f1 "fecha") (getCell cols f2 "fecha")
  else cellLe (docDe cols f1) (docDe cols f2)

/-- The sort key as a relation, for Mathlib's stable `insertionSort`. -/
def RelFila (cols : List String) (f1 f2 : List Cell) : Prop :=
  filaLe cols f1 f2 = true

instance (cols : List String) : DecidableRel (RelFila cols) :=
  fun f1 f2 => inferInstanceAs (Decidable (filaLe cols f1 f2 = true))

/-- `df.drop_duplicates(subset=['doc_id'], keep='first')` (source line 123):
keep a row when its identity cell has not been seen yet.  pandas treats NaN
identity values as equal to one another here, as does cell equality. -/
def drop_duplicates_aux (cols : List String) (vistos : List Cell) :
    List (List Cell) → List (List Cell)
  | [] => []
  | f :: fs =>
    if docDe cols f ∈ vistos then drop_duplicates_aux cols vistos fs
    else f :: drop_duplicates_aux cols (docDe cols f :: vistos) fs

/-- Keep-first deduplication on the `doc_id` column. -/
def drop_duplicates (cols : List String) (filas : List (List Cell)) :
    List (List Cell) :=
  drop_duplicates_aux cols [] filas

/-- The reported statistics (source lines 126-128), plus whether a date column
was found (`fecha_encontrada = false` records that the warning of line 89 was
shown instead of an error). -/
structure Stats where
  registros_originales : Nat
  registros_finales : Nat
  eliminados : Nat
  porcentaje : ℚ
  fecha_encontrada : Bool
deriving DecidableEq, Repr

/-- Build the statistics of a finished run (source lines 126-128). -/
def mkStats (orig fin : Nat) (fechaEnc : Bool) : Stats :=
  { registros_originales := orig
    registros_finales := fin
    eliminados := orig - fin
    porcentaje := if orig > 0 then (((orig - fin : Nat) : ℚ) / orig) * 100 else 0
    fecha_encontrada := fechaEnc }

/-- Outcome of `procesar_duplicados_optimizado`: a cleaned table with
statistics, the missing-identity error of lines 84-86 (carrying the available
column list shown by `st.info`), or the caught-exception error of lines
147-149 (`st.error`; in this model it is reached when line 111 would raise
`KeyError` because the rename of line 95 clobbered the date column). -/
inductive Resultado where
  | ok (df : DataFrame) (stats : Stats)
  | errorSinDocumento (columnasDisponibles : List String)
  | errorProcesamiento
deriving DecidableEq, Repr

/-- `df.rename(columns={antiguo: nuevo})`: relabel every column named
`antiguo`; a no-op when no column has that label. -/
def renombrar (cols : List String) (antiguo nuevo : String) : List String :=
  cols.map (fun c => if c = antiguo then nuevo else c)

/-- `procesar_duplicados_optimizado` (source lines 62-149).  Steps: record the
original row count; normalise every column label (line 70); resolve the
identity and date columns (lines 73-81); fail when no identity column was
found, where Python's falsy test `not col_documento` also fires on an empty
label (lines 83-86); drop the date column when absent or falsy (lines 88-90);
rename the found columns to `doc_id` and `fecha` (lines 93-95); parse the date
column and stably sort (lines 109-119); deduplicate keeping the first row
(line 123); compute statistics (lines 126-128) and return the cleaned table,
whose columns are not renamed back. -/
def procesar_duplicados_optimizado (parse : String → Option Int)
    (df : DataFrame) : Resultado :=
  let registros_originales := df.rows.length
  let ncols := df.cols.map normalizar_nombre_columna
  let col_documento := buscar_columna ncols nombresDocumento
  let col_fecha0 := buscar_columna ncols nombresFecha
  match col_documento with
  | none => .errorSinDocumento ncols
  | some cd =>
    if cd = "" then .errorSinDocumento ncols
    else
      let col_fecha : Option String :=
        match col_fecha0 with
        | some f => if f = "" then none else some f
        | none => none
      let cols1 := renombrar ncols cd "doc_id"
      match col_fecha with
      | some f =>
        let cols2 := renombrar cols1 f "fecha"
        if "fecha" ∈ cols2 then
          let filas1 := df.rows.map (coerceFecha parse cols2)
          let ordenadas := List.insertionSort (RelFila cols2) filas1
          let limpio := drop_duplicates cols2 ordenadas
          .ok ⟨cols2, limpio⟩
            (mkStats registros_originales limpio.length true)
        else .errorProcesamiento
      | none =>
        let limpio := drop_duplicates cols1 df.rows
        .ok ⟨cols1, limpio⟩
          (mkStats registros_originales limpio.length false)

/-- The cleaned table of a run, when the run succeeded. -/
def tablaDe : Resultado → Option DataFrame
  | .ok df _ => some df
  | _ => none

/-- The column headers of the cleaned table, when the run succeeded. -/
def columnasDe : Resultado → Option (List String)
  | .ok df _ => some df.cols
  | _ => none

/-! ### Order lemmas for the sort keys -/

theorem char_toNat_inj {a b : Char} (h : a.toNat = b.toNat) : a = b := by
  have := Char.ofNat_toNat a
  rw [h, Char.ofNat_toNat b] at this
  exact this.symm

theorem leChars_cons_iff {x y : Char} {xs ys : List Char} :
    leChars (x :: xs) (y :: ys) = true ↔
      x.toNat < y.toNat ∨ (x.toNat = y.toNat ∧ leChars xs ys = true) := by
  by_cases h : x.toNat < y.toNat
  · simp [leChars, h]
  · by_cases h2 : y.toNat < x.toNat
    · simp only [leChars, if_neg h, if_pos h2]
      constructor
      · intro hfalse; cases hfalse
      · rintro (h3 | ⟨h3, _⟩) <;> omega
    · have heq : x.toNat = y.toNat := by omega
      simp [leChars, h, h2, heq]

theorem leChars_total : ∀ (a b : List Char),
    leChars a b = true ∨ leChars b a = true
  | [], _ => Or.inl rfl
  | _ :: _, [] => Or.inr rfl
  | a :: as, b :: bs => by
    rcases Nat.lt_trichotomy a.toNat b.toNat with h | h | h
    · exact Or.inl (leChars_cons_iff.mpr (Or.inl h))
    · rcases leChars_total as bs with ih | ih
      · exact Or.inl (leChars_cons_iff.mpr (Or.inr ⟨h, ih⟩))
      · exact Or.inr (leChars_cons_iff.mpr (Or.inr ⟨h.symm, ih⟩))
    · exact Or.inr (leChars_cons_iff.mpr (Or.inl h))

theorem leChars_trans : ∀ {a b c : List Char},
    leChars a b = true → leChars b c = true → leChars a c = true
  | [], _, _, _, _ => rfl
  | _ :: _, [], _, h1, _ => by cases h1
  | _ :: _, _ :: _, [], _, h2 => by cases h2
  | a :: as, b :: bs, c :: cs, h1, h2 => by
    rcases leChars_cons_iff.mp h1 with hx | ⟨hx, hx2⟩ <;>
      rcases leChars_cons_iff.mp h2 with hy | ⟨hy, hy2⟩
    · exact leChars_cons_iff.mpr (Or.inl (by omega))
    · exact leChars_cons_iff.mpr (Or.inl (by omega))
    · exact leChars_cons_iff.mpr (Or.inl (by omega))
    · exact leChars_cons_iff.mpr (Or.inr ⟨by omega, leChars_trans hx2 hy2⟩)

theorem leChars_antisymm : ∀ {a b : List Char},
    leChars a b = true → leChars b a = true → a = b
  | [], [], _, _ => rfl
  | [], _ :: _, _, h2 => by cases h2
  | _ :: _, [], h1, _ => by cases h1
  | a :: as, b :: bs, h1, h2 => by
    rcases leChars_cons_iff.mp h1 with hx | ⟨hx, hx2⟩ <;>
      rcases leChars_cons_iff.mp h2 with hy | ⟨hy, hy2⟩ <;>
      try omega
    rw [char_toNat_inj hx, leChars_antisymm hx2 hy2]

theorem cellLe_total (a b : Cell) : cellLe a b = true ∨ cellLe b a = true := by
  cases a <;> cases b <;> simp [cellLe, cellRank] <;>
    first
      | exact leChars_total _ _
      | exact Int.le_total _ _
      | omega

theorem cellLe_trans {a b c : Cell} (h1 : cellLe a b = true)
    (h2 : cellLe b c = true) : cellLe a c = true := by
  cases a <;> cases b <;> cases c <;>
    simp [cellLe, cellRank] at * <;>
    first
      | exact leChars_trans h1 h2
      | exact Int.le_trans h1 h2
      | omega

theorem cellLe_antisymm {a b : Cell} (h1 : cellLe a b = true)
    (h2 : cellLe b a = true) : a = b := by
  cases a with
  | str x =>
    cases b with
    | str y =>
      simp only [cellLe] at h1 h2
      rw [String.ext (leChars_antisymm h1 h2)]
    | ts y => simp [cellLe, cellRank] at h2
    | na => simp [cellLe, cellRank] at h2
  | ts x =>
    cases b with
    | str y => simp [cellLe, cellRank] at h1
    | ts y =>
      simp only [cellLe, decide_eq_true_eq] at h1 h2
      rw [Int.le_antisymm h1 h2]
    | na => simp [cellLe, cellRank] at h2
  | na =>
    cases b with
    | str y => simp [cellLe, cellRank] at h1
    | ts y => simp [cellLe, cellRank] at h1
    | na => rfl

theorem fechaDescLe_total (a b : Cell) :
    fechaDescLe a b = true ∨ fechaDescLe b a = true := by
  cases a <;> cases b <;> simp [fechaDescLe, fechaRank] <;>
    first
      | exact leChars_total _ _
      | exact (Int.le_total _ _).symm
      | exact Int.le_total _ _
      | omega

theorem fechaDescLe_trans {a b c : Cell} (h1 : fechaDescLe a b = true)
    (h2 : fechaDescLe b c = true) : fechaDescLe a c = true := by
  cases a <;> cases b <;> cases c <;>
    simp [fechaDescLe, fechaRank] at * <;>
    first
      | exact leChars_trans h1 h2
      | exact Int.le_trans h2 h1
      | omega

theorem fechaDescLe_refl (a : Cell) : fechaDescLe a a = true := by
  rcases fechaDescLe_total a a with h | h <;> exact h

/-- Only a parsed timestamp at least `d` can sort no later than `.ts d` under
the descending date order. -/
theorem fechaDescLe_ts_inv {x : Cell} {d : Int}
    (h : fechaDescLe x (Cell.ts d) = true) : ∃ t, x = Cell.ts t ∧ d ≤ t := by
  cases x with
  | ts t => exact ⟨t, rfl, by simpa [fechaDescLe] using h⟩
  | str s => simp [fechaDescLe, fechaRank] at h
  | na => simp [fechaDescLe, fechaRank] at h

/-- A missing cell never sorts at or before a present cell in the ascending
identity order: missing identities go last. -/
theorem cellLe_na_inv {x : Cell} (h : cellLe Cell.na x = true) : x = Cell.na := by
  cases x <;> simp [cellLe, cellRank] at h ⊢

theorem filaLe_total (cols : List String) (f1 f2 : List Cell) :
    filaLe cols f1 f2 = true ∨ filaLe cols f2 f1 = true := by
  unfold filaLe
  by_cases h : docDe cols f1 = docDe cols f2
  · rw [if_pos h, if_pos h.symm]
    exact fechaDescLe_total _ _
  · rw [if_neg h, if_neg (fun h2 => h h2.symm)]
    exact cellLe_total _ _

theorem filaLe_trans (cols : List String) {f1 f2 f3 : List Cell}
    (h1 : filaLe cols f1 f2 = true) (h2 : filaLe cols f2 f3 = true) :
    filaLe cols f1 f3 = true := by
  unfold filaLe at *
  by_cases d12 : docDe cols f1 = docDe cols f2 <;>
    by_cases d23 : docDe cols f2 = docDe cols f3
  · simp only [if_pos d12] at h1
    simp only [if_pos d23] at h2
    simp [d12.trans d23, fechaDescLe_trans h1 h2]
  · have d13 : docDe cols f1 ≠ docDe cols f3 := by rw [d12]; exact d23
    simp only [if_pos d12] at h1
    simp only [if_neg d23] at h2
    simp only [if_neg d13]
    rw [d12]; exact h2
  · have d13 : docDe cols f1 ≠ docDe cols f3 := by
      intro h; exact d12 (h.trans d23.symm)
    simp only [if_neg d12] at h1
    simp only [if_pos d23] at h2
    simp only [if_neg d13]
    rw [← d23]; exact h1
  · simp only [if_neg d12] at h1
    simp only [if_neg d23] at h2
    by_cases d13 : docDe cols f1 = docDe cols f3
    · exfalso
      rw [d13] at h1
      exact d12 (d13.trans (cellLe_antisymm h1 h2))
    · simp only [if_neg d13]
      exact cellLe_trans h1 h2

instance (cols : List String) : IsTotal (List Cell) (RelFila cols) :=
  ⟨fun f1 f2 => filaLe_total cols f1 f2⟩

instance (cols : List String) : IsTrans (List Cell) (RelFila cols) :=
  ⟨fun _ _ _ h1 h2 => filaLe_trans cols h1 h2⟩

/-! ### Keep-first deduplication lemmas -/

theorem drop_duplicates_aux_sublist (cols : List String) :
    ∀ (vistos : List Cell) (l : List (List Cell)),
      List.Sublist (drop_duplicates_aux cols vistos l) l
  | _, [] => List.Sublist.refl _
  | vistos, f :: fs => by
    unfold drop_duplicates_aux
    by_cases h : docDe cols f ∈ vistos
    · simp only [if_pos h]
      exact (drop_duplicates_aux_sublist cols vistos fs).cons f
    · simp only [if_neg h]
      exact (drop_duplicates_aux_sublist cols _ fs).cons₂ f

theorem drop_duplicates_aux_not_visto (cols : List String) :
    ∀ (vistos : List Cell) (l : List (List Cell)) (g : List Cell),
      g ∈ drop_duplicates_aux cols vistos l → docDe cols g ∉ vistos
  | _, [], _ => by intro h; cases h
  | vistos, f :: fs, g => by
    unfold drop_duplicates_aux
    by_cases h : docDe cols f ∈ vistos
    · simp only [if_pos h]
      exact drop_duplicates_aux_not_visto cols vistos fs g
    · simp only [if_neg h, List.mem_cons]
      rintro (rfl | hg)
      · exact h
      · intro hv
        exact drop_duplicates_aux_not_visto cols _ fs g hg
          (List.mem_cons_of_mem _ hv)

theorem drop_duplicates_aux_find (cols : List String) :
    ∀ (vistos : List Cell) (l : List (List Cell)) (g : List Cell),
      g ∈ drop_duplicates_aux cols vistos l →
      l.find? (fun x => docDe cols x == docDe cols g) = some g
  | _, [], _ => by intro h; cases h
  | vistos, f :: fs, g => by
    unfold drop_duplicates_aux
    by_cases h : docDe cols f ∈ vistos
    · simp only [if_pos h]
      intro hg
      have hne : docDe cols g ≠ docDe cols f := by
        intro he
        exact drop_duplicates_aux_not_visto cols vistos fs g hg (he ▸ h)
      rw [List.find?_cons_of_neg _ (by simpa using fun he => hne he.symm)]
      exact drop_duplicates_aux_find cols vistos fs g hg
    · simp only [if_neg h, List.mem_cons]
      rintro (rfl | hg)
      · rw [List.find?_cons_of_pos _ (by simp)]
      · have hne : docDe cols g ≠ docDe cols f := by
          intro he
          exact drop_duplicates_aux_not_visto cols _ fs g hg
            (he ▸ List.mem_cons_self _ _)
        rw [List.find?_cons_of_neg _ (by simpa using fun he => hne he.symm)]
        exact drop_duplicates_aux_find cols _ fs g hg

theorem drop_duplicates_aux_exists (cols : List String) :
    ∀ (vistos : List Cell) (l : List (List Cell)) (x : List Cell),
      x ∈ l → docDe cols x ∉ vistos →
      ∃ g ∈ drop_duplicates_aux cols vistos l, docDe cols g = docDe cols x
  | _, [], _ => by intro h; cases h
  | vistos, f :: fs, x => by
    unfold drop_duplicates_aux
    intro hmem hv
    rcases List.mem_cons.mp hmem with rfl | hx
    · rw [if_neg hv]
      exact ⟨x, List.mem_cons_self _ _, rfl⟩
    · by_cases h : docDe cols f ∈ vistos
      · rw [if_pos h]
        exact drop_duplicates_aux_exists cols vistos fs x hx hv
      · rw [if_neg h]
        by_cases hxf : docDe cols x = docDe cols f
        · exact ⟨f, List.mem_cons_self _ _, hxf.symm⟩
        · obtain ⟨g, hg, he⟩ := drop_duplicates_aux_exists cols
            (docDe cols f :: vistos) fs x hx
            (by simp [hxf, hv])
          exact ⟨g, List.mem_cons_of_mem _ hg, he⟩

theorem drop_duplicates_aux_nodup (cols : List String) :
    ∀ (vistos : List Cell) (l : List (List Cell)),
      ((drop_duplicates_aux cols vistos l).map (docDe cols)).Nodup
  | _, [] => List.nodup_nil
  | vistos, f :: fs => by
    unfold drop_duplicates_aux
    by_cases h : docDe cols f ∈ vistos
    · simp only [if_pos h]
      exact drop_duplicates_aux_nodup cols vistos fs
    · simp only [if_neg h, List.map_cons, List.nodup_cons]
      refine ⟨?_, drop_duplicates_aux_nodup cols _ fs⟩
      intro hmem
      obtain ⟨g, hg, he⟩ := List.mem_map.mp hmem
      exact drop_duplicates_aux_not_visto cols _ fs g hg
        (he ▸ List.mem_cons_self _ _)

theorem drop_duplicates_aux_eq_self (cols : List String) :
    ∀ (vistos : List Cell) (l : List (List Cell)),
      (l.map (docDe cols)).Nodup → (∀ x ∈ l, docDe cols x ∉ vistos) →
      drop_duplicates_aux cols vistos l = l
  | _, [], _, _ => rfl
  | vistos, f :: fs, hnd, hv => by
    unfold drop_duplicates_aux
    rw [if_neg (hv f (List.mem_cons_self _ _))]
    simp only [List.map_cons, List.nodup_cons] at hnd
    rw [drop_duplicates_aux_eq_self cols _ fs hnd.2]
    intro x hx
    simp only [List.mem_cons, not_or]
    refine ⟨?_, hv x (List.mem_cons_of_mem _ hx)⟩
    intro he
    exact hnd.1 (he ▸ List.mem_map_of_mem (docDe cols) hx)

/-- In a list whose identity keys are pairwise distinct, at most one element
carries any given key. -/
theorem length_filter_key_le_one {α β : Type} [DecidableEq β] (k : α → β)
    (v : β) : ∀ (l : List α), (l.map k).Nodup →
      (l.filter (fun x => k x == v)).length ≤ 1
  | [], _ => by simp
  | h :: t, hnd => by
    simp only [List.map_cons, List.nodup_cons] at hnd
    by_cases hv : k h = v
    · rw [List.filter_cons_of_pos (by simp [hv])]
      have : t.filter (fun x => k x == v) = [] := by
        rw [List.filter_eq_nil_iff]
        intro a ha hp
        rw [beq_iff_eq] at hp
        exact hnd.1 ((hp.trans hv.symm) ▸ List.mem_map_of_mem k ha)
      simp [this]
    · rw [List.filter_cons_of_neg (by simp [hv])]
      exact length_filter_key_le_one k v t hnd.2

/-! ### Cell access and date-coercion lemmas -/

theorem findIdx?_label_ne {cols : List String} {c d : String} {i j : Nat}
    (hc : cols.findIdx? (fun x => x == c) = some i)
    (hd : cols.findIdx? (fun x => x == d) = some j) (hcd : c ≠ d) : i ≠ j := by
  obtain ⟨hi, hpi, -⟩ := List.findIdx?_eq_some_iff_getElem.mp hc
  obtain ⟨hj, hpj, -⟩ := List.findIdx?_eq_some_iff_getElem.mp hd
  intro he
  subst he
  rw [beq_iff_eq] at hpi hpj
  exact hcd (hpi.symm.trans hpj)

/-- Parsing the date column leaves the identity cell unchanged. -/
theorem docDe_coerceFecha (parse : String → Option Int) (cols : List String)
    (fila : List Cell) :
    docDe cols (coerceFecha parse cols fila) = docDe cols fila := by
  unfold coerceFecha
  cases hf : cols.findIdx? (fun x => x == "fecha") with
  | none => rfl
  | some j =>
    unfold docDe getCell
    cases hd : cols.findIdx? (fun x => x == "doc_id") with
    | none => rfl
    | some i =>
      have hij : i ≠ j := findIdx?_label_ne hd hf (by decide)
      simp [List.getElem?_set_ne hij.symm]

/-- After coercion, the date cell is the parsed timestamp or a missing value. -/
theorem fecha_coerceFecha (parse : String → Option Int) (cols : List String)
    (fila : List Cell) {j : Nat}
    (hj : cols.findIdx? (fun x => x == "fecha") = some j) :
    getCell cols (coerceFecha parse cols fila) "fecha"
      = match to_datetime parse (getCell cols fila "fecha") with
        | some t => Cell.ts t
        | none => Cell.na := by
  simp only [coerceFecha, getCell, hj]
  by_cases hlen : j < fila.length
  · simp [List.getElem?_set_self hlen]
  · rw [List.set_eq_of_length_le (Nat.le_of_not_lt hlen)]
    have h0 : fila.getD j Cell.na = Cell.na := by
      simp [List.getElem?_eq_none (Nat.le_of_not_lt hlen)]
    rw [h0]
    rfl

/-- Cells at positions other than the date column are unchanged by coercion. -/
theorem coerceFecha_other (parse : String → Option Int) (cols : List String)
    (fila : List Cell) {j : Nat}
    (hj : cols.findIdx? (fun x => x == "fecha") = some j) :
    ∀ k, k ≠ j → (coerceFecha parse cols fila)[k]? = fila[k]? := by
  intro k hk
  unfold coerceFecha
  rw [hj]
  exact List.getElem?_set_ne (fun he => hk he.symm)

/-! ### First-match domination in a sorted list -/

theorem find?_min_of_sorted {α : Type} {R : α → α → Prop} {p : α → Bool} :
    ∀ {l : List α}, l.Sorted R → ∀ {g : α}, l.find? p = some g →
      ∀ x ∈ l, p x = true → R g x ∨ g = x
  | [], _, _, hg => by cases hg
  | a :: t, hs, g, hg => by
    rw [List.sorted_cons] at hs
    intro x hx hp
    by_cases hpa : p a
    · rw [List.find?_cons_of_pos _ hpa, Option.some_inj] at hg
      subst hg
      rcases List.mem_cons.mp hx with rfl | hx
      · exact Or.inr rfl
      · exact Or.inl (hs.1 x hx)
    · rw [List.find?_cons_of_neg _ hpa] at hg
      rcases List.mem_cons.mp hx with rfl | hx
      · exact absurd hp hpa
      · exact find?_min_of_sorted hs.2 hg x hx hp

/-- Two positions `i < j` of a list give a two-element sublist. -/
theorem pair_sublist_of_getElem {α : Type} :
    ∀ (l : List α) (i j : Nat), i < j →
      ∀ {x y : α}, l[i]? = some x → l[j]? = some y → List.Sublist [x, y] l
  | [], i, j, _, _, _, hx, _ => by simp at hx
  | a :: t, 0, j + 1, _, x, y, hx, hy => by
    rw [List.getElem?_cons_zero, Option.some_inj] at hx
    subst hx
    rw [List.getElem?_cons_succ] at hy
    exact (List.singleton_sublist.mpr (List.getElem?_mem hy)).cons₂ a
  | a :: t, i + 1, j + 1, hij, x, y, hx, hy => by
    rw [List.getElem?_cons_succ] at hx hy
    exact (pair_sublist_of_getElem t i j (Nat.lt_of_succ_lt_succ hij) hx hy).cons a

/-! ### Unfolding lemmas for the resolver and the engine -/

theorem buscar_eq_find (cols cands : List String) :
    buscar_columna cols cands = cols.find? (coincideAlguno cands) := by
  induction cols with
  | nil => rfl
  | cons c rest ih =>
    unfold buscar_columna
    by_cases h : coincideAlguno cands c
    · rw [if_pos h, List.find?_cons_of_pos _ h]
    · rw [if_neg h, List.find?_cons_of_neg _ h, ih]

theorem buscar_mem {cols cands : List String} {c : String}
    (h : buscar_columna cols cands = some c) : c ∈ cols := by
  rw [buscar_eq_find] at h
  exact List.mem_of_find?_eq_some h

theorem buscar_matches {cols cands : List String} {c : String}
    (h : buscar_columna cols cands = some c) : coincideAlguno cands c = true := by
  rw [buscar_eq_find] at h
  exact List.find?_some h

/-- Engine unfolding, date-column branch: with both columns resolved and the
working `fecha` column present, the run parses, sorts and deduplicates. -/
theorem procesar_eq_fecha (parse : String → Option Int) (df : DataFrame)
    {cd f : String}
    (hd : buscar_columna (df.cols.map normalizar_nombre_columna)
      nombresDocumento = some cd)
    (hcd : cd ≠ "")
    (hf : buscar_columna (df.cols.map normalizar_nombre_columna)
      nombresFecha = some f)
    (hff : f ≠ "")
    (hmem : "fecha" ∈ renombrar (renombrar
      (df.cols.map normalizar_nombre_columna) cd "doc_id") f "fecha") :
    procesar_duplicados_optimizado parse df =
      .ok ⟨renombrar (renombrar (df.cols.map normalizar_nombre_columna)
              cd "doc_id") f "fecha",
            drop_duplicates
              (renombrar (renombrar (df.cols.map normalizar_nombre_columna)
                cd "doc_id") f "fecha")
              (List.insertionSort
                (RelFila (renombrar (renombrar
                  (df.cols.map normalizar_nombre_columna) cd "doc_id")
                  f "fecha"))
                (df.rows.map (coerceFecha parse
                  (renombrar (renombrar
                    (df.cols.map normalizar_nombre_columna) cd "doc_id")
                    f "fecha"))))⟩
        (mkStats df.rows.length
          (drop_duplicates
            (renombrar (renombrar (df.cols.map normalizar_nombre_columna)
              cd "doc_id") f "fecha")
            (List.insertionSort
              (RelFila (renombrar (renombrar
                (df.cols.map normalizar_nombre_columna) cd "doc_id")
                f "fecha"))
              (df.rows.map (coerceFecha parse
                (renombrar (renombrar
                  (df.cols.map normalizar_nombre_columna) cd "doc_id")
                  f "fecha"))))).length
          true) := by
  simp only [procesar_duplicados_optimizado, hd, hf, hcd, hff,
    if_pos hmem, ite_false, ite_true]

/-- Engine unfolding, date-column branch, when the working `fecha` column was
clobbered: the `KeyError` of line 111 is caught and reported. -/
theorem procesar_eq_error_fecha (parse : String → Option Int) (df : DataFrame)
    {cd f : String}
    (hd : buscar_columna (df.cols.map normalizar_nombre_columna)
      nombresDocumento = some cd)
    (hcd : cd ≠ "")
    (hf : buscar_columna (df.cols.map normalizar_nombre_columna)
      nombresFecha = some f)
    (hff : f ≠ "")
    (hmem : "fecha" ∉ renombrar (renombrar
      (df.cols.map normalizar_nombre_columna) cd "doc_id") f "fecha") :
    procesar_duplicados_optimizado parse df = .errorProcesamiento := by
  simp only [procesar_duplicados_optimizado, hd, hf, hcd, hff,
    if_neg hmem, ite_false, ite_true]

/-- Engine unfolding, no-date branch: with the date column unresolved (or
resolved to a falsy empty label), rows are deduplicated in original order. -/
theorem procesar_eq_sin_fecha (parse : String → Option Int) (df : DataFrame)
    {cd : String}
    (hd : buscar_columna (df.cols.map normalizar_nombre_columna)
      nombresDocumento = some cd)
    (hcd : cd ≠ "")
    (hfn : buscar_columna (df.cols.map normalizar_nombre_columna)
        nombresFecha = none ∨
      buscar_columna (df.cols.map normalizar_nombre_columna)
        nombresFecha = some "") :
    procesar_duplicados_optimizado parse df =
      .ok ⟨renombrar (df.cols.map normalizar_nombre_columna) cd "doc_id",
            drop_duplicates
              (renombrar (df.cols.map normalizar_nombre_columna) cd "doc_id")
              df.rows⟩
        (mkStats df.rows.length
          (drop_duplicates
            (renombrar (df.cols.map normalizar_nombre_columna) cd "doc_id")
            df.rows).length
          false) := by
  rcases hfn with hfn | hfn <;>
    simp only [procesar_duplicados_optimizado, hd, hfn, hcd, ite_false,
      ite_true]

/-- Engine unfolding: a run with an unresolved identity column reports the
missing-identity error, carrying the available column labels. -/
theorem procesar_eq_sin_documento (parse : String → Option Int)
    (df : DataFrame)
    (hd : buscar_columna (df.cols.map normalizar_nombre_columna)
      nombresDocumento = none) :
    procesar_duplicados_optimizado parse df =
      .errorSinDocumento (df.cols.map normalizar_nombre_columna) := by
  simp only [procesar_duplicados_optimizado, hd]

theorem procesar_eq_sin_documento_vacio (parse : String → Option Int)
    (df : DataFrame)
    (hd : buscar_columna (df.cols.map normalizar_nombre_columna)
      nombresDocumento = some "") :
    procesar_duplicados_optimizado parse df =
      .errorSinDocumento (df.cols.map normalizar_nombre_columna) := by
  simp [procesar_duplicados_optimizado, hd]

/-! ### Claim theorems -/

/-- Spec-side matching rule of §4.1, written from the spec's words: a column
label matches a candidate set when, for some candidate, the candidate is a
substring of the normalised label, or the normalised label is a substring of
the candidate, or the two are equal after removing all internal spaces. -/
def etiquetaCoincide (candidatos : List String) (etiqueta : String) : Bool :=
  candidatos.any fun cand =>
    contiene (normalizar_nombre_columna etiqueta)
        (normalizar_nombre_columna cand) ||
      contiene (normalizar_nombre_columna cand)
        (normalizar_nombre_columna etiqueta) ||
      (sinEspacios (normalizar_nombre_columna cand) ==
        sinEspacios (normalizar_nombre_columna etiqueta))

/-- C3: for every sequence of raw labels and candidate set, the column
resolver returns the first column in left-to-right order whose normalised
(trimmed, lower-cased) label matches some candidate under the substring /
reverse-substring / space-insensitive-equality rule, returning the raw label,
and returns absence (`none`, not an error) when no column matches; as a Lean
function of its two arguments it is pure and deterministic. -/
theorem c3_resolutor_primera_coincidencia (cols cands : List String) :
    buscar_columna cols cands = cols.find? (etiquetaCoincide cands) := by
  rw [buscar_eq_find]
  rfl

/-- C6: when no column matches the identity candidate set, the engine reports
the missing-identity error carrying the list of available column labels, and
produces no output table; in this total model of the `try/except` body every
outcome is a returned value — a cleaned table or a reported error — never an
uncaught exception. -/
theorem c6_sin_documento_reporta_error (parse : String → Option Int)
    (df : DataFrame)
    (hd : buscar_columna (df.cols.map normalizar_nombre_columna)
      nombresDocumento = none) :
    procesar_duplicados_optimizado parse df =
        .errorSinDocumento (df.cols.map normalizar_nombre_columna) ∧
      tablaDe (procesar_duplicados_optimizado parse df) = none := by
  have h := procesar_eq_sin_documento parse df hd
  exact ⟨h, by rw [h]; rfl⟩

/-- Witness for C6 at a concrete table with no identity-like column. -/
theorem c6_witness :
    procesar_duplicados_optimizado (fun _ => none)
        ⟨["EMPLEADO", "CARGO"], [[Cell.str "x", Cell.str "y"]]⟩ =
        .errorSinDocumento ["empleado", "cargo"] ∧
      tablaDe (procesar_duplicados_optimizado (fun _ => none)
        ⟨["EMPLEADO", "CARGO"], [[Cell.str "x", Cell.str "y"]]⟩) = none :=
  c6_sin_documento_reporta_error (fun _ => none)
    ⟨["EMPLEADO", "CARGO"], [[Cell.str "x", Cell.str "y"]]⟩ (by decide)

/-- Shared core of the run invariants: deduplicating a list `l` that is the
(possibly transformed, possibly reordered) version of the input rows yields
pairwise-distinct identities, preserves the set of identity values, and never
grows the row count. -/
theorem c2_nucleo (cols : List String) (trans : List Cell → List Cell)
    (entrada l : List (List Cell))
    (hiff : ∀ z, z ∈ l ↔ ∃ x ∈ entrada, trans x = z)
    (hlen : l.length = entrada.length)
    (hdoc : ∀ x, docDe cols (trans x) = docDe cols x) :
    ((drop_duplicates cols l).map (docDe cols)).Nodup ∧
    (∀ x ∈ entrada, ∃ g ∈ drop_duplicates cols l,
      docDe cols g = docDe cols x) ∧
    (∀ g ∈ drop_duplicates cols l, ∃ x ∈ entrada,
      docDe cols x = docDe cols g) ∧
    (drop_duplicates cols l).length ≤ entrada.length ∧
    (entrada = [] → drop_duplicates cols l = []) := by
  refine ⟨drop_duplicates_aux_nodup cols [] l, ?_, ?_, ?_, ?_⟩
  · intro x hx
    obtain ⟨g, hg, he⟩ := drop_duplicates_aux_exists cols [] l (trans x)
      ((hiff (trans x)).mpr ⟨x, hx, rfl⟩) (by simp)
    exact ⟨g, hg, he.trans (hdoc x)⟩
  · intro g hg
    have hgl : g ∈ l := (drop_duplicates_aux_sublist cols [] l).mem hg
    obtain ⟨x, hx, he⟩ := (hiff g).mp hgl
    exact ⟨x, hx, by rw [← he, hdoc]⟩
  · exact le_trans ((drop_duplicates_aux_sublist cols [] l).length_le) hlen.le
  · intro he
    have hl : l = [] := by
      rw [List.eq_nil_iff_forall_not_mem]
      intro z hz
      obtain ⟨x, hx, -⟩ := (hiff z).mp hz
      rw [he] at hx
      cases hx
    rw [hl]
    rfl

/-- C2: on every successful run, the identity values of the output rows are
pairwise distinct, every identity value of the input appears in the output
(and every output identity comes from the input), the counts satisfy
`final ≤ original` and `removed = original − final`, and an empty input yields
an empty output with removed percentage 0 and no division-by-zero failure. -/
theorem c2_invariantes (parse : String → Option Int) (df out : DataFrame)
    (stats : Stats)
    (hok : procesar_duplicados_optimizado parse df = .ok out stats) :
    (out.rows.map (docDe out.cols)).Nodup ∧
    (∀ x ∈ df.rows, ∃ g ∈ out.rows, docDe out.cols g = docDe out.cols x) ∧
    (∀ g ∈ out.rows, ∃ x ∈ df.rows, docDe out.cols x = docDe out.cols g) ∧
    stats.registros_finales ≤ stats.registros_originales ∧
    stats.eliminados = stats.registros_originales - stats.registros_finales ∧
    stats.registros_originales = df.rows.length ∧
    stats.registros_finales = out.rows.length ∧
    (df.rows = [] → out.rows = [] ∧ stats.porcentaje = 0) := by
  cases hbd : buscar_columna (df.cols.map normalizar_nombre_columna)
      nombresDocumento with
  | none =>
    rw [procesar_eq_sin_documento parse df hbd] at hok
    cases hok
  | some cd =>
  by_cases hcd : cd = ""
  · subst hcd
    rw [procesar_eq_sin_documento_vacio parse df hbd] at hok
    cases hok
  cases hbf : buscar_columna (df.cols.map normalizar_nombre_columna)
      nombresFecha with
  | none =>
    rw [procesar_eq_sin_fecha parse df hbd hcd (Or.inl hbf)] at hok
    injection hok with h1 h2
    subst h1
    subst h2
    obtain ⟨k1, k2, k3, k4, k5⟩ := c2_nucleo
      (renombrar (df.cols.map normalizar_nombre_columna) cd "doc_id")
      (fun x => x) df.rows df.rows (by simp) rfl (fun _ => rfl)
    refine ⟨k1, k2, k3, k4, rfl, rfl, rfl, ?_⟩
    intro he
    refine ⟨k5 he, ?_⟩
    simp [mkStats, he]
  | some f =>
  by_cases hff : f = ""
  · subst hff
    rw [procesar_eq_sin_fecha parse df hbd hcd (Or.inr hbf)] at hok
    injection hok with h1 h2
    subst h1
    subst h2
    obtain ⟨k1, k2, k3, k4, k5⟩ := c2_nucleo
      (renombrar (df.cols.map normalizar_nombre_columna) cd "doc_id")
      (fun x => x) df.rows df.rows (by simp) rfl (fun _ => rfl)
    refine ⟨k1, k2, k3, k4, rfl, rfl, rfl, ?_⟩
    intro he
    refine ⟨k5 he, ?_⟩
    simp [mkStats, he]
  by_cases hmem : "fecha" ∈ renombrar (renombrar
      (df.cols.map normalizar_nombre_columna) cd "doc_id") f "fecha"
  · rw [procesar_eq_fecha parse df hbd hcd hbf hff hmem] at hok
    injection hok with h1 h2
    subst h1
    subst h2
    obtain ⟨k1, k2, k3, k4, k5⟩ := c2_nucleo
      (renombrar (renombrar (df.cols.map normalizar_nombre_columna)
        cd "doc_id") f "fecha")
      (coerceFecha parse (renombrar (renombrar
        (df.cols.map normalizar_nombre_columna) cd "doc_id") f "fecha"))
      df.rows
      (List.insertionSort
        (RelFila (renombrar (renombrar (df.cols.map normalizar_nombre_columna)
          cd "doc_id") f "fecha"))
        (df.rows.map (coerceFecha parse (renombrar (renombrar
          (df.cols.map normalizar_nombre_columna) cd "doc_id") f "fecha"))))
      (by
        intro z
        rw [List.mem_insertionSort, List.mem_map])
      (by rw [List.length_insertionSort, List.length_map])
      (docDe_coerceFecha parse _)
    refine ⟨k1, k2, k3, k4, rfl, rfl, rfl, ?_⟩
    intro he
    refine ⟨k5 he, ?_⟩
    simp [mkStats, he]
  · rw [procesar_eq_error_fecha parse df hbd hcd hbf hff hmem] at hok
    cases hok

/-- Witness for C2 at the worked example of the spec (§8), whose run keeps
three of four rows. -/
theorem c2_witness :
    ((DataFrame.mk ["empleado", "doc_id", "fecha", "cargo"]
        [[Cell.str "Carlos L", Cell.str "345678", Cell.ts 20230105,
          Cell.str "IT"]]).rows.map
      (docDe ["empleado", "doc_id", "fecha", "cargo"])).Nodup := by
  have h := c2_invariantes
    (fun s => if s = "2023-01-05" then some 20230105 else none)
    ⟨["EMPLEADO", "DOCUMENTO", "F_INGRESO", "CARGO"],
      [[Cell.str "Carlos L", Cell.str "345678", Cell.str "2023-01-05",
        Cell.str "IT"]]⟩
    ⟨["empleado", "doc_id", "fecha", "cargo"],
      [[Cell.str "Carlos L", Cell.str "345678", Cell.ts 20230105,
        Cell.str "IT"]]⟩
    (mkStats 1 1 true) rfl
  exact h.1

/-- C4: when the identity column resolves but no date column does, the run
still succeeds — the missing date is recorded as a warning flag, not an
error — no sorting is performed, the retained rows are a sublist of the input
rows in their original order, every retained row is the first occurrence of
its identity value in the input (so for two rows at positions `i < j` with
equal identity, position `i` wins), and every input identity is retained. -/
theorem c4_sin_fecha_conserva_primera (parse : String → Option Int)
    (df out : DataFrame) (stats : Stats) (cd : String)
    (hd : buscar_columna (df.cols.map normalizar_nombre_columna)
      nombresDocumento = some cd)
    (hcd : cd ≠ "")
    (hfn : buscar_columna (df.cols.map normalizar_nombre_columna)
        nombresFecha = none ∨
      buscar_columna (df.cols.map normalizar_nombre_columna)
        nombresFecha = some "")
    (hok : procesar_duplicados_optimizado parse df = .ok out stats) :
    stats.fecha_encontrada = false ∧
    List.Sublist out.rows df.rows ∧
    (∀ g ∈ out.rows,
      df.rows.find? (fun x => docDe out.cols x == docDe out.cols g)
        = some g) ∧
    (∀ x ∈ df.rows, ∃ g ∈ out.rows, docDe out.cols g = docDe out.cols x) := by
  rw [procesar_eq_sin_fecha parse df hd hcd hfn] at hok
  injection hok with h1 h2
  subst h1
  subst h2
  refine ⟨rfl, drop_duplicates_aux_sublist _ [] _, ?_, ?_⟩
  · intro g hg
    exact drop_duplicates_aux_find _ [] _ g hg
  · intro x hx
    exact drop_duplicates_aux_exists _ [] _ x hx (by simp)

/-- Witness for C4: a three-row table without a date column keeps the first
occurrence of the repeated identity, in original order. -/
theorem c4_witness :
    List.Sublist
      [[Cell.str "1", Cell.str "a"], [Cell.str "2", Cell.str "b"]]
      [[Cell.str "1", Cell.str "a"], [Cell.str "2", Cell.str "b"],
        [Cell.str "1", Cell.str "c"]] :=
  (c4_sin_fecha_conserva_primera (fun _ => none)
    ⟨["DOCUMENTO", "CARGO"],
      [[Cell.str "1", Cell.str "a"], [Cell.str "2", Cell.str "b"],
        [Cell.str "1", Cell.str "c"]]⟩
    ⟨["doc_id", "cargo"],
      [[Cell.str "1", Cell.str "a"], [Cell.str "2", Cell.str "b"]]⟩
    (mkStats 3 2 false) "documento" (by decide) (by decide)
    (Or.inl (by decide)) rfl).2.1

theorem fecha_idx_of_mem {cols : List String} (hmem : "fecha" ∈ cols) :
    ∃ j, cols.findIdx? (fun x => x == "fecha") = some j := by
  have h : (cols.findIdx? (fun x => x == "fecha")).isSome = true := by
    rw [List.findIdx?_isSome, List.any_eq_true]
    exact ⟨"fecha", hmem, by simp⟩
  exact Option.isSome_iff_exists.mp h

/-- A row kept by deduplication of the sorted list sorts no later than every
row of the underlying list that shares its identity. -/
theorem kept_row_spec (cols : List String) (l : List (List Cell))
    {g : List Cell}
    (hg : g ∈ drop_duplicates cols (List.insertionSort (RelFila cols) l)) :
    ∀ x ∈ l, docDe cols x = docDe cols g → RelFila cols g x ∨ g = x := by
  have hsorted := List.sorted_insertionSort (RelFila cols) l
  have hfind := drop_duplicates_aux_find cols [] _ g hg
  intro x hx he
  exact find?_min_of_sorted hsorted hfind x
    ((List.mem_insertionSort _).mpr hx) (by simp [he])

/-- Every identity of the underlying list survives deduplication. -/
theorem kept_row_exists (cols : List String) (l : List (List Cell))
    {x : List Cell} (hx : x ∈ l) :
    ∃ g ∈ drop_duplicates cols (List.insertionSort (RelFila cols) l),
      docDe cols g = docDe cols x :=
  drop_duplicates_aux_exists cols [] _ x
    ((List.mem_insertionSort _).mpr hx) (by simp)

/-- C1: with identity and date columns resolved, consider two input rows with
the same identity value.  If both date cells parse and one is strictly later,
or exactly one of the two parses, then the processed version of the losing row
does not appear in the output, while the single retained row of that identity
carries a parsed timestamp at least as late as the winning row's — regardless
of the original order of the two rows. -/
theorem c1_gana_la_mas_reciente (parse : String → Option Int)
    (df out : DataFrame) (stats : Stats) (cd f : String)
    (hd : buscar_columna (df.cols.map normalizar_nombre_columna)
      nombresDocumento = some cd)
    (hcd : cd ≠ "")
    (hf : buscar_columna (df.cols.map normalizar_nombre_columna)
      nombresFecha = some f)
    (hff : f ≠ "")
    (hok : procesar_duplicados_optimizado parse df = .ok out stats)
    (f1 f2 : List Cell) (h1 : f1 ∈ df.rows) (h2 : f2 ∈ df.rows)
    (hdoc : docDe out.cols f1 = docDe out.cols f2)
    (d2 : Int)
    (hp2 : to_datetime parse (getCell out.cols f2 "fecha") = some d2)
    (hp1 : (∃ d1, to_datetime parse (getCell out.cols f1 "fecha") = some d1
        ∧ d1 < d2) ∨
      to_datetime parse (getCell out.cols f1 "fecha") = none) :
    coerceFecha parse out.cols f1 ∉ out.rows ∧
    ∃ g ∈ out.rows, docDe out.cols g = docDe out.cols f1 ∧
      ∃ t, getCell out.cols g "fecha" = Cell.ts t ∧ d2 ≤ t := by
  by_cases hmem : "fecha" ∈ renombrar (renombrar
      (df.cols.map normalizar_nombre_columna) cd "doc_id") f "fecha"
  · rw [procesar_eq_fecha parse df hd hcd hf hff hmem] at hok
    injection hok with hok1 hok2
    have hcols : out.cols = renombrar (renombrar
        (df.cols.map normalizar_nombre_columna) cd "doc_id") f "fecha" := by
      rw [← hok1]
    have hrows : out.rows = drop_duplicates out.cols
        (List.insertionSort (RelFila out.cols)
          (df.rows.map (coerceFecha parse out.cols))) := by
      rw [hcols, ← hok1]
    obtain ⟨j, hj⟩ := fecha_idx_of_mem (hcols ▸ hmem)
    -- the kept representative of the shared identity
    have hmem2 : coerceFecha parse out.cols f2 ∈
        df.rows.map (coerceFecha parse out.cols) :=
      List.mem_map_of_mem _ h2
    obtain ⟨g, hg, hge⟩ : ∃ g ∈ out.rows,
        docDe out.cols g = docDe out.cols (coerceFecha parse out.cols f2) := by
      rw [hrows]
      exact kept_row_exists out.cols _ hmem2
    have hf2cell : getCell out.cols (coerceFecha parse out.cols f2) "fecha"
        = Cell.ts d2 := by
      rw [fecha_coerceFecha parse out.cols f2 hj, hp2]
    have hbound : ∃ t, getCell out.cols g "fecha" = Cell.ts t ∧ d2 ≤ t := by
      have hdom := kept_row_spec out.cols
        (df.rows.map (coerceFecha parse out.cols)) (hrows ▸ hg)
        (coerceFecha parse out.cols f2) hmem2 hge.symm
      rcases hdom with hrel | heqg
      · unfold RelFila filaLe at hrel
        rw [if_pos hge, hf2cell] at hrel
        exact fechaDescLe_ts_inv hrel
      · rw [heqg, hf2cell]
        exact ⟨d2, rfl, le_refl d2⟩
    have hgdoc : docDe out.cols g = docDe out.cols f1 := by
      rw [hge, docDe_coerceFecha, ← hdoc]
    refine ⟨?_, g, hg, hgdoc, hbound⟩
    -- the dominated row cannot be the kept representative
    intro hin
    have hfind1 := drop_duplicates_aux_find out.cols [] _
      (coerceFecha parse out.cols f1) (hrows ▸ hin)
    have hfindg := drop_duplicates_aux_find out.cols [] _ g (hrows ▸ hg)
    have hkey : docDe out.cols (coerceFecha parse out.cols f1)
        = docDe out.cols g := by
      rw [docDe_coerceFecha, hdoc, hge, docDe_coerceFecha]
    rw [hkey] at hfind1
    have hge1 : g = coerceFecha parse out.cols f1 := by
      have h3 := hfindg.symm.trans hfind1
      exact Option.some_inj.mp h3
    obtain ⟨t, hts, hle⟩ := hbound
    rw [hge1, fecha_coerceFecha parse out.cols f1 hj] at hts
    rcases hp1 with ⟨d1, hp1e, hlt⟩ | hp1n
    · rw [hp1e] at hts
      have : d1 = t := by injection hts
      omega
    · rw [hp1n] at hts
      cases hts
  · rw [procesar_eq_error_fecha parse df hd hcd hf hff hmem] at hok
    cases hok

/-- Witness for C1: two rows with identity "1", dated 1 and 2; the later-dated
row's value is the one kept. -/
theorem c1_witness :
    coerceFecha
        (fun s => if s = "a" then some 1 else if s = "b" then some 2 else none)
        ["doc_id", "fecha"] [Cell.str "1", Cell.str "a"] ∉
      [[Cell.str "1", Cell.ts 2]] ∧
    ∃ g ∈ [[Cell.str "1", Cell.ts 2]],
      docDe ["doc_id", "fecha"] g
          = docDe ["doc_id", "fecha"] [Cell.str "1", Cell.str "a"] ∧
      ∃ t, getCell ["doc_id", "fecha"] g "fecha" = Cell.ts t ∧ (2 : Int) ≤ t :=
  c1_gana_la_mas_reciente
    (fun s => if s = "a" then some 1 else if s = "b" then some 2 else none)
    ⟨["Documento", "Fecha"],
      [[Cell.str "1", Cell.str "a"], [Cell.str "1", Cell.str "b"]]⟩
    ⟨["doc_id", "fecha"], [[Cell.str "1", Cell.ts 2]]⟩
    (mkStats 2 1 true) "documento" "fecha"
    (by decide) (by decide) (by decide) (by decide) rfl
    [Cell.str "1", Cell.str "a"] [Cell.str "1", Cell.str "b"]
    (by decide) (by decide) (by decide) 2 (by decide)
    (Or.inl ⟨1, by decide, by decide⟩)

/-- C5: with identity and date columns resolved, two rows at input positions
`i < j` sharing both identity and parsed date value keep their original
relative order through the stable sort, and the row retained for that
identity is the first matching row of the sorted sequence — hence the
earlier-in-file row among same-identity-same-date rows. -/
theorem c5_empate_conserva_primera (parse : String → Option Int)
    (df out : DataFrame) (stats : Stats) (cd f : String)
    (hd : buscar_columna (df.cols.map normalizar_nombre_columna)
      nombresDocumento = some cd)
    (hcd : cd ≠ "")
    (hf : buscar_columna (df.cols.map normalizar_nombre_columna)
      nombresFecha = some f)
    (hff : f ≠ "")
    (hok : procesar_duplicados_optimizado parse df = .ok out stats)
    (i j : Nat) (hij : i < j)
    (f1 f2 : List Cell)
    (hgi : df.rows[i]? = some f1) (hgj : df.rows[j]? = some f2)
    (hdoc : docDe out.cols f1 = docDe out.cols f2)
    (hfechas : to_datetime parse (getCell out.cols f1 "fecha")
      = to_datetime parse (getCell out.cols f2 "fecha")) :
    List.Sublist
        [coerceFecha parse out.cols f1, coerceFecha parse out.cols f2]
        (List.insertionSort (RelFila out.cols)
          (df.rows.map (coerceFecha parse out.cols))) ∧
    ∃ g ∈ out.rows, docDe out.cols g = docDe out.cols f1 ∧
      (List.insertionSort (RelFila out.cols)
          (df.rows.map (coerceFecha parse out.cols))).find?
        (fun x => docDe out.cols x == docDe out.cols f1) = some g := by
  by_cases hmem : "fecha" ∈ renombrar (renombrar
      (df.cols.map normalizar_nombre_columna) cd "doc_id") f "fecha"
  · rw [procesar_eq_fecha parse df hd hcd hf hff hmem] at hok
    injection hok with hok1 hok2
    have hcols : out.cols = renombrar (renombrar
        (df.cols.map normalizar_nombre_columna) cd "doc_id") f "fecha" := by
      rw [← hok1]
    have hrows : out.rows = drop_duplicates out.cols
        (List.insertionSort (RelFila out.cols)
          (df.rows.map (coerceFecha parse out.cols))) := by
      rw [hcols, ← hok1]
    obtain ⟨k, hk⟩ := fecha_idx_of_mem (hcols ▸ hmem)
    have hpair0 : List.Sublist [f1, f2] df.rows :=
      pair_sublist_of_getElem df.rows i j hij hgi hgj
    have hpair : List.Sublist
        [coerceFecha parse out.cols f1, coerceFecha parse out.cols f2]
        (df.rows.map (coerceFecha parse out.cols)) :=
      hpair0.map (coerceFecha parse out.cols)
    have hrel : RelFila out.cols (coerceFecha parse out.cols f1)
        (coerceFecha parse out.cols f2) := by
      unfold RelFila filaLe
      have hde : docDe out.cols (coerceFecha parse out.cols f1)
          = docDe out.cols (coerceFecha parse out.cols f2) := by
        rw [docDe_coerceFecha, docDe_coerceFecha, hdoc]
      rw [if_pos hde, fecha_coerceFecha parse out.cols f1 hk,
        fecha_coerceFecha parse out.cols f2 hk, hfechas]
      exact fechaDescLe_refl _
    refine ⟨List.pair_sublist_insertionSort hrel hpair, ?_⟩
    have hmem1 : coerceFecha parse out.cols f1 ∈
        df.rows.map (coerceFecha parse out.cols) :=
      List.mem_map_of_mem _ (List.getElem?_mem hgi)
    obtain ⟨g, hg, hge⟩ : ∃ g ∈ out.rows,
        docDe out.cols g = docDe out.cols (coerceFecha parse out.cols f1) := by
      rw [hrows]
      exact kept_row_exists out.cols _ hmem1
    have hge1 : docDe out.cols g = docDe out.cols f1 := by
      rw [hge, docDe_coerceFecha]
    refine ⟨g, hg, hge1, ?_⟩
    have hfind := drop_duplicates_aux_find out.cols [] _ g (hrows ▸ hg)
    rw [hge1] at hfind
    exact hfind
  · rw [procesar_eq_error_fecha parse df hd hcd hf hff hmem] at hok
    cases hok

/-- Witness for C5: two rows tied on identity and date; the first-in-file row
is the one retained. -/
theorem c5_witness :
    List.Sublist
        [coerceFecha (fun s => if s = "a" then some 1 else none)
            ["doc_id", "fecha", "cargo"]
            [Cell.str "1", Cell.str "a", Cell.str "A"],
          coerceFecha (fun s => if s = "a" then some 1 else none)
            ["doc_id", "fecha", "cargo"]
            [Cell.str "1", Cell.str "a", Cell.str "B"]]
        (List.insertionSort (RelFila ["doc_id", "fecha", "cargo"])
          ([[Cell.str "1", Cell.str "a", Cell.str "A"],
            [Cell.str "1", Cell.str "a", Cell.str "B"]].map
            (coerceFecha (fun s => if s = "a" then some 1 else none)
              ["doc_id", "fecha", "cargo"]))) ∧
    ∃ g ∈ [[Cell.str "1", Cell.ts 1, Cell.str "A"]],
      docDe ["doc_id", "fecha", "cargo"] g
          = docDe ["doc_id", "fecha", "cargo"]
            [Cell.str "1", Cell.str "a", Cell.str "A"] ∧
      (List.insertionSort (RelFila ["doc_id", "fecha", "cargo"])
          ([[Cell.str "1", Cell.str "a", Cell.str "A"],
            [Cell.str "1", Cell.str "a", Cell.str "B"]].map
            (coerceFecha (fun s => if s = "a" then some 1 else none)
              ["doc_id", "fecha", "cargo"]))).find?
        (fun x => docDe ["doc_id", "fecha", "cargo"] x
          == docDe ["doc_id", "fecha", "cargo"]
            [Cell.str "1", Cell.str "a", Cell.str "A"]) = some g :=
  c5_empate_conserva_primera
    (fun s => if s = "a" then some 1 else none)
    ⟨["Documento", "Fecha", "Cargo"],
      [[Cell.str "1", Cell.str "a", Cell.str "A"],
        [Cell.str "1", Cell.str "a", Cell.str "B"]]⟩
    ⟨["doc_id", "fecha", "cargo"], [[Cell.str "1", Cell.ts 1, Cell.str "A"]]⟩
    (mkStats 2 1 true) "documento" "fecha"
    (by decide) (by decide) (by decide) (by decide) rfl
    0 1 (by decide)
    [Cell.str "1", Cell.str "a", Cell.str "A"]
    [Cell.str "1", Cell.str "a", Cell.str "B"]
    rfl rfl (by decide) (by decide)

/-- Under the sort key, any row at or after a missing-identity row also has a
missing identity: missing identities sort after all present ones. -/
theorem relFila_na (cols : List String) {a b : List Cell}
    (h : RelFila cols a b) (ha : docDe cols a = Cell.na) :
    docDe cols b = Cell.na := by
  unfold RelFila filaLe at h
  by_cases he : docDe cols a = docDe cols b
  · rw [← he, ha]
  · rw [if_neg he, ha] at h
    exact cellLe_na_inv h

/-- C9: on every successful run, rows whose identity cell is missing form one
duplicate group: at most one such row survives, and the survivor is chosen by
the same keep-first rule as any other identity group — the first
missing-identity row of the scanned sequence, which is the input order when no
date column was resolved and the sorted order when one was; in the latter
case, missing identities additionally sort after all present identity values
in the sorted sequence. -/
theorem c9_identidades_faltantes (parse : String → Option Int)
    (df out : DataFrame) (stats : Stats)
    (hok : procesar_duplicados_optimizado parse df = .ok out stats) :
    (out.rows.filter (fun g => docDe out.cols g == Cell.na)).length ≤ 1 ∧
    (stats.fecha_encontrada = false →
      ∀ g ∈ out.rows, docDe out.cols g = Cell.na →
        df.rows.find? (fun x => docDe out.cols x == Cell.na) = some g) ∧
    (stats.fecha_encontrada = true →
      (∀ g ∈ out.rows, docDe out.cols g = Cell.na →
        (List.insertionSort (RelFila out.cols)
            (df.rows.map (coerceFecha parse out.cols))).find?
          (fun x => docDe out.cols x == Cell.na) = some g) ∧
      List.Pairwise
        (fun a b => docDe out.cols a = Cell.na → docDe out.cols b = Cell.na)
        (List.insertionSort (RelFila out.cols)
          (df.rows.map (coerceFecha parse out.cols)))) := by
  cases hbd : buscar_columna (df.cols.map normalizar_nombre_columna)
      nombresDocumento with
  | none =>
    rw [procesar_eq_sin_documento parse df hbd] at hok
    cases hok
  | some cd =>
  by_cases hcd : cd = ""
  · subst hcd
    rw [procesar_eq_sin_documento_vacio parse df hbd] at hok
    cases hok
  cases hbf : buscar_columna (df.cols.map normalizar_nombre_columna)
      nombresFecha with
  | none =>
    rw [procesar_eq_sin_fecha parse df hbd hcd (Or.inl hbf)] at hok
    injection hok with hok1 hok2
    have hcols : out.cols = renombrar
        (df.cols.map normalizar_nombre_columna) cd "doc_id" := by
      rw [← hok1]
    have hrows : out.rows = drop_duplicates out.cols df.rows := by
      rw [hcols, ← hok1]
    have hflag : stats.fecha_encontrada = false := by
      rw [← hok2]
      rfl
    refine ⟨?_, ?_, ?_⟩
    · refine length_filter_key_le_one (docDe out.cols) Cell.na out.rows ?_
      rw [hrows]
      exact drop_duplicates_aux_nodup out.cols [] df.rows
    · intro _ g hg hna
      have hfind := drop_duplicates_aux_find out.cols [] _ g (hrows ▸ hg)
      rw [hna] at hfind
      exact hfind
    · intro htrue
      rw [hflag] at htrue
      exact absurd htrue (by decide)
  | some f =>
  by_cases hff : f = ""
  · subst hff
    rw [procesar_eq_sin_fecha parse df hbd hcd (Or.inr hbf)] at hok
    injection hok with hok1 hok2
    have hcols : out.cols = renombrar
        (df.cols.map normalizar_nombre_columna) cd "doc_id" := by
      rw [← hok1]
    have hrows : out.rows = drop_duplicates out.cols df.rows := by
      rw [hcols, ← hok1]
    have hflag : stats.fecha_encontrada = false := by
      rw [← hok2]
      rfl
    refine ⟨?_, ?_, ?_⟩
    · refine length_filter_key_le_one (docDe out.cols) Cell.na out.rows ?_
      rw [hrows]
      exact drop_duplicates_aux_nodup out.cols [] df.rows
    · intro _ g hg hna
      have hfind := drop_duplicates_aux_find out.cols [] _ g (hrows ▸ hg)
      rw [hna] at hfind
      exact hfind
    · intro htrue
      rw [hflag] at htrue
      exact absurd htrue (by decide)
  by_cases hmem : "fecha" ∈ renombrar (renombrar
      (df.cols.map normalizar_nombre_columna) cd "doc_id") f "fecha"
  · rw [procesar_eq_fecha parse df hbd hcd hbf hff hmem] at hok
    injection hok with hok1 hok2
    have hcols : out.cols = renombrar (renombrar
        (df.cols.map normalizar_nombre_columna) cd "doc_id") f "fecha" := by
      rw [← hok1]
    have hrows : out.rows = drop_duplicates out.cols
        (List.insertionSort (RelFila out.cols)
          (df.rows.map (coerceFecha parse out.cols))) := by
      rw [hcols, ← hok1]
    have hflag : stats.fecha_encontrada = true := by
      rw [← hok2]
      rfl
    refine ⟨?_, ?_, ?_⟩
    · refine length_filter_key_le_one (docDe out.cols) Cell.na out.rows ?_
      rw [hrows]
      exact drop_duplicates_aux_nodup out.cols [] _
    · intro hfalse
      rw [hflag] at hfalse
      exact absurd hfalse (by decide)
    · intro _
      refine ⟨?_, ?_⟩
      · intro g hg hna
        have hfind := drop_duplicates_aux_find out.cols [] _ g (hrows ▸ hg)
        rw [hna] at hfind
        exact hfind
      · exact (List.sorted_insertionSort (RelFila out.cols) _).imp
          (fun hab ha => relFila_na out.cols hab ha)
  · rw [procesar_eq_error_fecha parse df hbd hcd hbf hff hmem] at hok
    cases hok

/-- Witness for C9 in the no-date branch: two missing-identity rows collapse
to the first one in input order. -/
theorem c9_witness :
    ([[Cell.na, Cell.str "a"], [Cell.na, Cell.str "b"]] :
        List (List Cell)).find?
      (fun x => docDe ["doc_id", "cargo"] x == Cell.na)
      = some [Cell.na, Cell.str "a"] :=
  (c9_identidades_faltantes (fun _ => none)
    ⟨["Documento", "Cargo"],
      [[Cell.na, Cell.str "a"], [Cell.na, Cell.str "b"]]⟩
    ⟨["doc_id", "cargo"], [[Cell.na, Cell.str "a"]]⟩
    (mkStats 2 1 false) rfl).2.1 rfl
    [Cell.na, Cell.str "a"] (by decide) (by decide)

/-- C10: with identity and date columns resolved, every output row is the
processed version of some input row: its date cell is the parsed timestamp of
the input date cell (or the missing marker when the cell does not parse), and
every cell outside the date column is exactly the input row's cell. -/
theorem c10_celdas_fecha_transformadas (parse : String → Option Int)
    (df out : DataFrame) (stats : Stats) (cd f : String)
    (hd : buscar_columna (df.cols.map normalizar_nombre_columna)
      nombresDocumento = some cd)
    (hcd : cd ≠ "")
    (hf : buscar_columna (df.cols.map normalizar_nombre_columna)
      nombresFecha = some f)
    (hff : f ≠ "")
    (hok : procesar_duplicados_optimizado parse df = .ok out stats) :
    ∀ g ∈ out.rows, ∃ x ∈ df.rows, ∃ k,
      out.cols.findIdx? (fun c => c == "fecha") = some k ∧
      g = coerceFecha parse out.cols x ∧
      getCell out.cols g "fecha"
        = (match to_datetime parse (getCell out.cols x "fecha") with
           | some t => Cell.ts t
           | none => Cell.na) ∧
      ∀ m, m ≠ k → g[m]? = x[m]? := by
  by_cases hmem : "fecha" ∈ renombrar (renombrar
      (df.cols.map normalizar_nombre_columna) cd "doc_id") f "fecha"
  · rw [procesar_eq_fecha parse df hd hcd hf hff hmem] at hok
    injection hok with hok1 hok2
    have hcols : out.cols = renombrar (renombrar
        (df.cols.map normalizar_nombre_columna) cd "doc_id") f "fecha" := by
      rw [← hok1]
    have hrows : out.rows = drop_duplicates out.cols
        (List.insertionSort (RelFila out.cols)
          (df.rows.map (coerceFecha parse out.cols))) := by
      rw [hcols, ← hok1]
    obtain ⟨k, hk⟩ := fecha_idx_of_mem (hcols ▸ hmem)
    intro g hg
    have hgd : g ∈ drop_duplicates out.cols
        (List.insertionSort (RelFila out.cols)
          (df.rows.map (coerceFecha parse out.cols))) := hrows ▸ hg
    have hgl : g ∈ List.insertionSort (RelFila out.cols)
        (df.rows.map (coerceFecha parse out.cols)) :=
      (drop_duplicates_aux_sublist out.cols [] _).mem hgd
    obtain ⟨x, hx, he⟩ := List.mem_map.mp ((List.mem_insertionSort _).mp hgl)
    refine ⟨x, hx, k, hk, he.symm, ?_, ?_⟩
    · rw [← he]
      exact fecha_coerceFecha parse out.cols x hk
    · intro m hm
      rw [← he]
      exact coerceFecha_other parse out.cols x hk m hm
  · rw [procesar_eq_error_fecha parse df hd hcd hf hff hmem] at hok
    cases hok

/-- Witness for C10 at a two-row table: the kept row is the processed version
of some input row. -/
theorem c10_witness :
    ∃ x ∈ ([[Cell.str "1", Cell.str "a"], [Cell.str "1", Cell.str "b"]] :
        List (List Cell)), ∃ k,
      (["doc_id", "fecha"] : List String).findIdx? (fun c => c == "fecha")
        = some k ∧
      ([Cell.str "1", Cell.ts 2] : List Cell) = coerceFecha
        (fun s => if s = "a" then some 1 else if s = "b" then some 2
          else none) ["doc_id", "fecha"] x ∧
      getCell ["doc_id", "fecha"] [Cell.str "1", Cell.ts 2] "fecha"
        = (match to_datetime
            (fun s => if s = "a" then some 1 else if s = "b" then some 2
              else none)
            (getCell ["doc_id", "fecha"] x "fecha") with
           | some t => Cell.ts t
           | none => Cell.na) ∧
      ∀ m, m ≠ k → ([Cell.str "1", Cell.ts 2] : List Cell)[m]? = x[m]? :=
  c10_celdas_fecha_transformadas
    (fun s => if s = "a" then some 1 else if s = "b" then some 2 else none)
    ⟨["Documento", "Fecha"],
      [[Cell.str "1", Cell.str "a"], [Cell.str "1", Cell.str "b"]]⟩
    ⟨["doc_id", "fecha"], [[Cell.str "1", Cell.ts 2]]⟩
    (mkStats 2 1 true) "documento" "fecha"
    (by decide) (by decide) (by decide) (by decide) rfl
    [Cell.str "1", Cell.ts 2] (by decide)

/-! ### Idempotence of label normalisation -/

theorem char_toNat_ofNat_ascii {m : Nat} (h : m < 55296) :
    (Char.ofNat m).toNat = m := by
  rw [Char.ofNat, dif_pos (Or.inl h)]
  rfl

theorem toLower_toLower (c : Char) :
    Char.toLower (Char.toLower c) = Char.toLower c := by
  unfold Char.toLower
  by_cases h : c.toNat ≥ 65 ∧ c.toNat ≤ 90
  · rw [if_pos h]
    have h1 : (Char.ofNat (c.toNat + 32)).toNat = c.toNat + 32 :=
      char_toNat_ofNat_ascii (by omega)
    rw [if_neg (by rw [h1]; omega)]
  · rw [if_neg h, if_neg h]

theorem isWhitespace_iff_toNat {c : Char} : c.isWhitespace = true ↔
    (c.toNat = 32 ∨ c.toNat = 9 ∨ c.toNat = 13 ∨ c.toNat = 10) := by
  unfold Char.isWhitespace
  simp only [Bool.or_eq_true, decide_eq_true_eq, or_assoc]
  constructor
  · rintro (rfl | rfl | rfl | rfl)
    · exact Or.inl (by decide)
    · exact Or.inr (Or.inl (by decide))
    · exact Or.inr (Or.inr (Or.inl (by decide)))
    · exact Or.inr (Or.inr (Or.inr (by decide)))
  · rintro (h | h | h | h)
    · exact Or.inl (char_toNat_inj (by rw [h]; decide))
    · exact Or.inr (Or.inl (char_toNat_inj (by rw [h]; decide)))
    · exact Or.inr (Or.inr (Or.inl (char_toNat_inj (by rw [h]; decide))))
    · exact Or.inr (Or.inr (Or.inr (char_toNat_inj (by rw [h]; decide))))

theorem isWhitespace_eq_false {c : Char}
    (h : ¬(c.toNat = 32 ∨ c.toNat = 9 ∨ c.toNat = 13 ∨ c.toNat = 10)) :
    c.isWhitespace = false := by
  cases hb : c.isWhitespace
  · rfl
  · exact absurd (isWhitespace_iff_toNat.mp hb) h

theorem isWhitespace_toLower (c : Char) :
    (Char.toLower c).isWhitespace = c.isWhitespace := by
  unfold Char.toLower
  by_cases h : c.toNat ≥ 65 ∧ c.toNat ≤ 90
  · rw [if_pos h]
    have h1 : (Char.ofNat (c.toNat + 32)).toNat = c.toNat + 32 :=
      char_toNat_ofNat_ascii (by omega)
    rw [isWhitespace_eq_false (by rw [h1]; omega),
      isWhitespace_eq_false (by omega)]
  · rw [if_neg h]

/-- A left-trimmed, right-trimmed list needs no further left trimming. -/
theorem dropWhile_rtrim_fix {α : Type} (p : α → Bool) (l : List α) :
    List.dropWhile p (List.rdropWhile p (List.dropWhile p l))
      = List.rdropWhile p (List.dropWhile p l) := by
  obtain ⟨t, ht⟩ : ∃ t, List.rdropWhile p (List.dropWhile p l) ++ t
      = List.dropWhile p l := List.rdropWhile_prefix p (List.dropWhile p l)
  cases hX : List.rdropWhile p (List.dropWhile p l) with
  | nil => rfl
  | cons a v =>
    rw [hX] at ht
    have hne : List.dropWhile p l ≠ [] := by
      rw [← ht]
      simp
    have hhead : (List.dropWhile p l).head hne = a := by
      rw [List.head_eq_iff_head?_eq_some hne, ← ht]
      rfl
    have hpa : p a = false := by
      rw [← hhead]
      exact List.head_dropWhile_not p l hne
    rw [List.dropWhile_cons_of_neg (by simp [hpa])]

def recortarYBajar (l : List Char) : List Char :=
  (((l.dropWhile Char.isWhitespace).reverse.dropWhile
      Char.isWhitespace).reverse).map Char.toLower

theorem normalizar_eq_recortar (s : String) :
    normalizar_nombre_columna s = ⟨recortarYBajar s.data⟩ := rfl

theorem recortarYBajar_idem (l : List Char) :
    recortarYBajar (recortarYBajar l) = recortarYBajar l := by
  have hcomp : (Char.isWhitespace ∘ Char.toLower) = Char.isWhitespace :=
    funext isWhitespace_toLower
  have hlow : (Char.toLower ∘ Char.toLower) = Char.toLower :=
    funext toLower_toLower
  have hR : ((l.dropWhile Char.isWhitespace).reverse.dropWhile
      Char.isWhitespace).reverse
    = List.rdropWhile Char.isWhitespace
        (l.dropWhile Char.isWhitespace) := rfl
  unfold recortarYBajar
  rw [hR, List.dropWhile_map, hcomp,
    dropWhile_rtrim_fix Char.isWhitespace l,
    ← List.map_reverse, List.dropWhile_map, hcomp, ← List.map_reverse,
    List.map_map, hlow]
  have h2 : ((List.rdropWhile Char.isWhitespace
        (l.dropWhile Char.isWhitespace)).reverse.dropWhile
          Char.isWhitespace).reverse
      = List.rdropWhile Char.isWhitespace
          (List.rdropWhile Char.isWhitespace
            (l.dropWhile Char.isWhitespace)) := rfl
  rw [h2, List.rdropWhile_idempotent]

theorem normalizar_idem (s : String) :
    normalizar_nombre_columna (normalizar_nombre_columna s)
      = normalizar_nombre_columna s := by
  rw [normalizar_eq_recortar s]
  rw [normalizar_eq_recortar ⟨recortarYBajar s.data⟩]
  apply congrArg String.mk
  exact recortarYBajar_idem s.data

/-! ### Re-running the engine on its own output -/

theorem renombrar_self (cols : List String) (a : String) :
    renombrar cols a a = cols := by
  unfold renombrar
  have h : (fun c => if c = a then a else c) = fun c : String => c := by
    funext c
    by_cases hc : c = a
    · rw [if_pos hc, hc]
    · rw [if_neg hc]
  rw [h]
  exact List.map_id cols

theorem coerceFecha_idem (parse : String → Option Int) (cols : List String)
    (fila : List Cell) :
    coerceFecha parse cols (coerceFecha parse cols fila)
      = coerceFecha parse cols fila := by
  unfold coerceFecha
  cases hj : cols.findIdx? (fun x => x == "fecha") with
  | none => rfl
  | some i =>
    dsimp only
    by_cases hlen : i < fila.length
    · rcases hm : to_datetime parse (fila.getD i Cell.na) with _ | t
      · dsimp only
        have hget : ((fila.set i Cell.na).getD i Cell.na) = Cell.na := by
          simp [List.getElem?_set_self (by simpa using hlen)]
        rw [hget]
        dsimp only [to_datetime]
        simp [List.set_set]
      · dsimp only
        have hget : ((fila.set i (Cell.ts t)).getD i Cell.na) = Cell.ts t := by
          simp [List.getElem?_set_self (by simpa using hlen)]
        rw [hget]
        dsimp only [to_datetime]
        simp [List.set_set]
    · have hfix : ∀ v : Cell, fila.set i v = fila := fun _ =>
        List.set_eq_of_length_le (Nat.le_of_not_lt hlen)
      simp only [hfix]

theorem coincide_doc_docid : coincideAlguno nombresDocumento "doc_id" = true := by
  decide

theorem coincide_fecha_docid : coincideAlguno nombresFecha "doc_id" = false := by
  decide

theorem coincide_doc_fecha : coincideAlguno nombresDocumento "fecha" = false := by
  decide

theorem coincide_fecha_fecha : coincideAlguno nombresFecha "fecha" = true := by
  decide

/-- After the two working renames, the identity role resolves to `doc_id` at
the position of the first identity match. -/
theorem find_doc_tras_renombrar :
    ∀ (ncols : List String) {cd f : String},
      ncols.find? (coincideAlguno nombresDocumento) = some cd →
      f ≠ "doc_id" →
      (renombrar (renombrar ncols cd "doc_id") f "fecha").find?
        (coincideAlguno nombresDocumento) = some "doc_id"
  | [], cd, f, hd, _ => by simp at hd
  | c :: rest, cd, f, hd, hfdoc => by
    have hren : renombrar (renombrar (c :: rest) cd "doc_id") f "fecha"
        = (if (if c = cd then "doc_id" else c) = f then "fecha"
            else (if c = cd then "doc_id" else c))
          :: renombrar (renombrar rest cd "doc_id") f "fecha" := rfl
    rw [hren]
    by_cases hc : coincideAlguno nombresDocumento c
    · rw [List.find?_cons_of_pos _ hc, Option.some_inj] at hd
      subst hd
      rw [if_pos rfl, if_neg (fun he => hfdoc he.symm)]
      exact List.find?_cons_of_pos _ coincide_doc_docid
    · rw [List.find?_cons_of_neg _ hc] at hd
      have hPcd : coincideAlguno nombresDocumento cd = true :=
        List.find?_some hd
      have hccd : c ≠ cd := fun he => hc (by rw [he, hPcd])
      rw [if_neg hccd]
      by_cases hcf : c = f
      · rw [if_pos hcf,
          List.find?_cons_of_neg _ (by simp [coincide_doc_fecha])]
        exact find_doc_tras_renombrar rest hd hfdoc
      · rw [if_neg hcf, List.find?_cons_of_neg _ hc]
        exact find_doc_tras_renombrar rest hd hfdoc

/-- After the two working renames, the date role resolves to `fecha` at the
position of the first date match, provided the two roles were distinct. -/
theorem find_fecha_tras_renombrar :
    ∀ (ncols : List String) {cd f : String},
      ncols.find? (coincideAlguno nombresFecha) = some f →
      f ≠ cd → f ≠ "doc_id" →
      (renombrar (renombrar ncols cd "doc_id") f "fecha").find?
        (coincideAlguno nombresFecha) = some "fecha"
  | [], cd, f, hf, _, _ => by simp at hf
  | c :: rest, cd, f, hf, hfcd, hfdoc => by
    have hren : renombrar (renombrar (c :: rest) cd "doc_id") f "fecha"
        = (if (if c = cd then "doc_id" else c) = f then "fecha"
            else (if c = cd then "doc_id" else c))
          :: renombrar (renombrar rest cd "doc_id") f "fecha" := rfl
    rw [hren]
    by_cases hc : coincideAlguno nombresFecha c
    · rw [List.find?_cons_of_pos _ hc, Option.some_inj] at hf
      subst hf
      rw [if_neg hfcd, if_pos rfl]
      exact List.find?_cons_of_pos _ coincide_fecha_fecha
    · rw [List.find?_cons_of_neg _ hc] at hf
      have hcf : c ≠ f := fun he =>
        hc (by rw [he, List.find?_some hf])
      by_cases hccd : c = cd
      · rw [if_pos hccd, if_neg (fun he => hfdoc he.symm),
          List.find?_cons_of_neg _ (by simp [coincide_fecha_docid])]
        exact find_fecha_tras_renombrar rest hf hfcd hfdoc
      · rw [if_neg hccd, if_neg hcf, List.find?_cons_of_neg _ hc]
        exact find_fecha_tras_renombrar rest hf hfcd hfdoc

/-- After renaming only the identity column, the identity role resolves to
`doc_id`. -/
theorem find_doc_tras_renombrar_solo :
    ∀ (ncols : List String) {cd : String},
      ncols.find? (coincideAlguno nombresDocumento) = some cd →
      (renombrar ncols cd "doc_id").find?
        (coincideAlguno nombresDocumento) = some "doc_id"
  | [], cd, hd => by simp at hd
  | c :: rest, cd, hd => by
    have hren : renombrar (c :: rest) cd "doc_id"
        = (if c = cd then "doc_id" else c)
          :: renombrar rest cd "doc_id" := rfl
    rw [hren]
    by_cases hc : coincideAlguno nombresDocumento c
    · rw [List.find?_cons_of_pos _ hc, Option.some_inj] at hd
      subst hd
      rw [if_pos rfl]
      exact List.find?_cons_of_pos _ coincide_doc_docid
    · rw [List.find?_cons_of_neg _ hc] at hd
      have hccd : c ≠ cd := fun he =>
        hc (by rw [he, List.find?_some hd])
      rw [if_neg hccd, List.find?_cons_of_neg _ hc]
      exact find_doc_tras_renombrar_solo rest hd

/-- When no column matched the date role, none does after the identity
rename either. -/
theorem find_fecha_ninguna_tras_renombrar (ncols : List String)
    (cd : String)
    (hf : ncols.find? (coincideAlguno nombresFecha) = none) :
    (renombrar ncols cd "doc_id").find?
      (coincideAlguno nombresFecha) = none := by
  rw [List.find?_eq_none] at hf ⊢
  intro a ha
  obtain ⟨c, hc, he⟩ := List.mem_map.mp ha
  by_cases hccd : c = cd
  · rw [← he, if_pos hccd]
    simp [coincide_fecha_docid]
  · rw [← he, if_neg hccd]
    exact hf c hc

/-- When the date role matched only a falsy empty label, it still resolves to
the empty label after the identity rename. -/
theorem find_fecha_vacia_tras_renombrar :
    ∀ (ncols : List String) {cd : String},
      ncols.find? (coincideAlguno nombresFecha) = some "" →
      cd ≠ "" →
      (renombrar ncols cd "doc_id").find?
        (coincideAlguno nombresFecha) = some ""
  | [], cd, hf, _ => by simp at hf
  | c :: rest, cd, hf, hcd => by
    have hren : renombrar (c :: rest) cd "doc_id"
        = (if c = cd then "doc_id" else c)
          :: renombrar rest cd "doc_id" := rfl
    rw [hren]
    by_cases hc : coincideAlguno nombresFecha c
    · rw [List.find?_cons_of_pos _ hc, Option.some_inj] at hf
      subst hf
      rw [if_neg (fun he => hcd he.symm)]
      exact List.find?_cons_of_pos _ hc
    · rw [List.find?_cons_of_neg _ hc] at hf
      by_cases hccd : c = cd
      · rw [if_pos hccd,
          List.find?_cons_of_neg _ (by simp [coincide_fecha_docid])]
        exact find_fecha_vacia_tras_renombrar rest hf hcd
      · rw [if_neg hccd, List.find?_cons_of_neg _ hc]
        exact find_fecha_vacia_tras_renombrar rest hf hcd

theorem normalizar_fix_ncols (cols : List String) :
    ∀ c ∈ cols.map normalizar_nombre_columna,
      normalizar_nombre_columna c = c := by
  intro c hc
  obtain ⟨c0, -, rfl⟩ := List.mem_map.mp hc
  exact normalizar_idem c0

theorem map_normalizar_renombrar2 (ncols : List String) (cd f : String)
    (hfix : ∀ c ∈ ncols, normalizar_nombre_columna c = c) :
    (renombrar (renombrar ncols cd "doc_id") f "fecha").map
        normalizar_nombre_columna
      = renombrar (renombrar ncols cd "doc_id") f "fecha" := by
  have h : ∀ e ∈ renombrar (renombrar ncols cd "doc_id") f "fecha",
      normalizar_nombre_columna e = e := by
    intro e he
    obtain ⟨e1, he1, rfl⟩ := List.mem_map.mp he
    obtain ⟨e0, he0, rfl⟩ := List.mem_map.mp he1
    by_cases h0 : e0 = cd
    · rw [if_pos h0]
      by_cases h1 : ("doc_id" : String) = f
      · rw [if_pos h1]
        decide
      · rw [if_neg h1]
        decide
    · rw [if_neg h0]
      by_cases h1 : e0 = f
      · rw [if_pos h1]
        decide
      · rw [if_neg h1]
        exact hfix e0 he0
  calc (renombrar (renombrar ncols cd "doc_id") f "fecha").map
        normalizar_nombre_columna
      = (renombrar (renombrar ncols cd "doc_id") f "fecha").map
          (fun e => e) := List.map_congr_left h
    _ = renombrar (renombrar ncols cd "doc_id") f "fecha" :=
        List.map_id _

theorem map_normalizar_renombrar1 (ncols : List String) (cd : String)
    (hfix : ∀ c ∈ ncols, normalizar_nombre_columna c = c) :
    (renombrar ncols cd "doc_id").map normalizar_nombre_columna
      = renombrar ncols cd "doc_id" := by
  have h : ∀ e ∈ renombrar ncols cd "doc_id",
      normalizar_nombre_columna e = e := by
    intro e he
    obtain ⟨e0, he0, rfl⟩ := List.mem_map.mp he
    by_cases h0 : e0 = cd
    · rw [if_pos h0]
      decide
    · rw [if_neg h0]
      exact hfix e0 he0
  calc (renombrar ncols cd "doc_id").map normalizar_nombre_columna
      = (renombrar ncols cd "doc_id").map (fun e => e) :=
        List.map_congr_left h
    _ = renombrar ncols cd "doc_id" := List.map_id _

/-- C8 amended: re-running the engine on the output of a successful run whose
identity and date roles resolved to distinct columns (including every run
without a date column) succeeds and returns the same table unchanged, with
zero rows removed and removed percentage 0. -/
theorem c8_idempotente_con_roles_distintos (parse : String → Option Int)
    (df out : DataFrame) (stats : Stats)
    (hok : procesar_duplicados_optimizado parse df = .ok out stats)
    (hsep : buscar_columna (df.cols.map normalizar_nombre_columna)
        nombresDocumento
      ≠ buscar_columna (df.cols.map normalizar_nombre_columna)
        nombresFecha) :
    ∃ stats2, procesar_duplicados_optimizado parse out = .ok out stats2 ∧
      stats2.eliminados = 0 ∧ stats2.porcentaje = 0 := by
  cases hbd : buscar_columna (df.cols.map normalizar_nombre_columna)
      nombresDocumento with
  | none =>
    rw [procesar_eq_sin_documento parse df hbd] at hok
    cases hok
  | some cd =>
  by_cases hcd : cd = ""
  · subst hcd
    rw [procesar_eq_sin_documento_vacio parse df hbd] at hok
    cases hok
  have hfixn := normalizar_fix_ncols df.cols
  have hbd' : (df.cols.map normalizar_nombre_columna).find?
      (coincideAlguno nombresDocumento) = some cd := by
    rw [← buscar_eq_find]
    exact hbd
  cases hbf : buscar_columna (df.cols.map normalizar_nombre_columna)
      nombresFecha with
  | none =>
    rw [procesar_eq_sin_fecha parse df hbd hcd (Or.inl hbf)] at hok
    injection hok with hok1 hok2
    have hcols : out.cols = renombrar
        (df.cols.map normalizar_nombre_columna) cd "doc_id" := by
      rw [← hok1]
    have hrows : out.rows = drop_duplicates out.cols df.rows := by
      rw [hcols, ← hok1]
    have hnorm2 : out.cols.map normalizar_nombre_columna = out.cols := by
      rw [hcols]
      exact map_normalizar_renombrar1 _ cd hfixn
    have hd2 : buscar_columna (out.cols.map normalizar_nombre_columna)
        nombresDocumento = some "doc_id" := by
      rw [hnorm2, hcols, buscar_eq_find]
      exact find_doc_tras_renombrar_solo _ hbd'
    have hf2 : buscar_columna (out.cols.map normalizar_nombre_columna)
        nombresFecha = none := by
      rw [hnorm2, hcols, buscar_eq_find]
      apply find_fecha_ninguna_tras_renombrar
      rw [← buscar_eq_find]
      exact hbf
    have hrun2 := procesar_eq_sin_fecha parse out hd2 (by decide)
      (Or.inl hf2)
    have hcols2 : renombrar (out.cols.map normalizar_nombre_columna)
        "doc_id" "doc_id" = out.cols := by
      rw [hnorm2, renombrar_self]
    rw [hcols2] at hrun2
    have hnodup : (out.rows.map (docDe out.cols)).Nodup := by
      rw [hrows]
      exact drop_duplicates_aux_nodup out.cols [] df.rows
    have hdedup : drop_duplicates out.cols out.rows = out.rows :=
      drop_duplicates_aux_eq_self out.cols [] out.rows hnodup
        (by simp)
    rw [hdedup] at hrun2
    have heta : (⟨out.cols, out.rows⟩ : DataFrame) = out := rfl
    rw [heta] at hrun2
    exact ⟨mkStats out.rows.length out.rows.length false, hrun2,
      by simp [mkStats], by simp [mkStats]⟩
  | some f =>
  by_cases hff : f = ""
  · subst hff
    rw [procesar_eq_sin_fecha parse df hbd hcd (Or.inr hbf)] at hok
    injection hok with hok1 hok2
    have hcols : out.cols = renombrar
        (df.cols.map normalizar_nombre_columna) cd "doc_id" := by
      rw [← hok1]
    have hrows : out.rows = drop_duplicates out.cols df.rows := by
      rw [hcols, ← hok1]
    have hnorm2 : out.cols.map normalizar_nombre_columna = out.cols := by
      rw [hcols]
      exact map_normalizar_renombrar1 _ cd hfixn
    have hd2 : buscar_columna (out.cols.map normalizar_nombre_columna)
        nombresDocumento = some "doc_id" := by
      rw [hnorm2, hcols, buscar_eq_find]
      exact find_doc_tras_renombrar_solo _ hbd'
    have hf2 : buscar_columna (out.cols.map normalizar_nombre_columna)
        nombresFecha = some "" := by
      rw [hnorm2, hcols, buscar_eq_find]
      apply find_fecha_vacia_tras_renombrar
      · rw [← buscar_eq_find]
        exact hbf
      · exact hcd
    have hrun2 := procesar_eq_sin_fecha parse out hd2 (by decide)
      (Or.inr hf2)
    have hcols2 : renombrar (out.cols.map normalizar_nombre_columna)
        "doc_id" "doc_id" = out.cols := by
      rw [hnorm2, renombrar_self]
    rw [hcols2] at hrun2
    have hnodup : (out.rows.map (docDe out.cols)).Nodup := by
      rw [hrows]
      exact drop_duplicates_aux_nodup out.cols [] df.rows
    have hdedup : drop_duplicates out.cols out.rows = out.rows :=
      drop_duplicates_aux_eq_self out.cols [] out.rows hnodup
        (by simp)
    rw [hdedup] at hrun2
    have heta : (⟨out.cols, out.rows⟩ : DataFrame) = out := rfl
    rw [heta] at hrun2
    exact ⟨mkStats out.rows.length out.rows.length false, hrun2,
      by simp [mkStats], by simp [mkStats]⟩
  -- date-column branch with distinct roles
  have hfcd : f ≠ cd := by
    intro he
    rw [hbd, hbf, he] at hsep
    exact hsep rfl
  have hPf : coincideAlguno nombresFecha f = true := buscar_matches hbf
  have hfdoc : f ≠ "doc_id" := by
    intro he
    rw [he, coincide_fecha_docid] at hPf
    cases hPf
  by_cases hmem : "fecha" ∈ renombrar (renombrar
      (df.cols.map normalizar_nombre_columna) cd "doc_id") f "fecha"
  · rw [procesar_eq_fecha parse df hbd hcd hbf hff hmem] at hok
    injection hok with hok1 hok2
    have hcols : out.cols = renombrar (renombrar
        (df.cols.map normalizar_nombre_columna) cd "doc_id") f "fecha" := by
      rw [← hok1]
    have hrows : out.rows = drop_duplicates out.cols
        (List.insertionSort (RelFila out.cols)
          (df.rows.map (coerceFecha parse out.cols))) := by
      rw [hcols, ← hok1]
    have hnorm2 : out.cols.map normalizar_nombre_columna = out.cols := by
      rw [hcols]
      exact map_normalizar_renombrar2 _ cd f hfixn
    have hd2 : buscar_columna (out.cols.map normalizar_nombre_columna)
        nombresDocumento = some "doc_id" := by
      rw [hnorm2, hcols, buscar_eq_find]
      exact find_doc_tras_renombrar _ hbd' hfdoc
    have hf2 : buscar_columna (out.cols.map normalizar_nombre_columna)
        nombresFecha = some "fecha" := by
      rw [hnorm2, hcols, buscar_eq_find]
      apply find_fecha_tras_renombrar
      · rw [← buscar_eq_find]
        exact hbf
      · exact hfcd
      · exact hfdoc
    have hcols2 : renombrar (renombrar
        (out.cols.map normalizar_nombre_columna) "doc_id" "doc_id")
        "fecha" "fecha" = out.cols := by
      rw [hnorm2, renombrar_self, renombrar_self]
    have hmem2 : "fecha" ∈ renombrar (renombrar
        (out.cols.map normalizar_nombre_columna) "doc_id" "doc_id")
        "fecha" "fecha" := by
      rw [hcols2, hcols]
      exact hmem
    have hrun2 := procesar_eq_fecha parse out hd2 (by decide) hf2
      (by decide) hmem2
    rw [hcols2] at hrun2
    have hform : ∀ g ∈ out.rows, coerceFecha parse out.cols g = g := by
      intro g hg
      have hgd : g ∈ drop_duplicates out.cols
          (List.insertionSort (RelFila out.cols)
            (df.rows.map (coerceFecha parse out.cols))) := hrows ▸ hg
      have hgl := (drop_duplicates_aux_sublist out.cols [] _).mem hgd
      obtain ⟨x, -, rfl⟩ := List.mem_map.mp
        ((List.mem_insertionSort _).mp hgl)
      exact coerceFecha_idem parse out.cols x
    have hmapfix : out.rows.map (coerceFecha parse out.cols) = out.rows := by
      calc out.rows.map (coerceFecha parse out.cols)
          = out.rows.map (fun g => g) := List.map_congr_left hform
        _ = out.rows := List.map_id _
    rw [hmapfix] at hrun2
    have hsorted : List.Sorted (RelFila out.cols) out.rows := by
      rw [hrows]
      exact List.Pairwise.sublist (drop_duplicates_aux_sublist out.cols [] _)
        (List.sorted_insertionSort (RelFila out.cols) _)
    rw [hsorted.insertionSort_eq] at hrun2
    have hnodup : (out.rows.map (docDe out.cols)).Nodup := by
      rw [hrows]
      exact drop_duplicates_aux_nodup out.cols [] _
    have hdedup : drop_duplicates out.cols out.rows = out.rows :=
      drop_duplicates_aux_eq_self out.cols [] out.rows hnodup (by simp)
    rw [hdedup] at hrun2
    have heta : (⟨out.cols, out.rows⟩ : DataFrame) = out := rfl
    rw [heta] at hrun2
    exact ⟨mkStats out.rows.length out.rows.length true, hrun2,
      by simp [mkStats], by simp [mkStats]⟩
  · rw [procesar_eq_error_fecha parse df hbd hcd hbf hff hmem] at hok
    cases hok

/-- Counterexample for C8 as stated: a successful run on a table whose first
column matches both the identity and the date candidate sets.  The output
table, fed back to the engine, resolves the date role to a different column
(`date x`), renames it and reparses it, so the second run does not return the
table unchanged. -/
theorem c8_counterexample :
    tablaDe (procesar_duplicados_optimizado (fun _ => none)
        ⟨["Documento Ingreso", "Date X", "Fecha"],
          [[Cell.str "111", Cell.str "x", Cell.str "2023-01-15"]]⟩)
      = some ⟨["doc_id", "date x", "fecha"],
          [[Cell.str "111", Cell.str "x", Cell.na]]⟩ ∧
    tablaDe (procesar_duplicados_optimizado (fun _ => none)
        ⟨["doc_id", "date x", "fecha"],
          [[Cell.str "111", Cell.str "x", Cell.na]]⟩)
      ≠ some ⟨["doc_id", "date x", "fecha"],
          [[Cell.str "111", Cell.str "x", Cell.na]]⟩ :=
  ⟨by decide, by decide⟩

/-- Witness for the amended C8 at a two-row table whose identity and date
roles resolve to distinct columns. -/
theorem c8_witness :
    ∃ stats2, procesar_duplicados_optimizado
        (fun s => if s = "a" then some 1 else if s = "b" then some 2
          else none)
        ⟨["doc_id", "fecha"], [[Cell.str "1", Cell.ts 2]]⟩
      = .ok ⟨["doc_id", "fecha"], [[Cell.str "1", Cell.ts 2]]⟩ stats2 ∧
      stats2.eliminados = 0 ∧ stats2.porcentaje = 0 :=
  c8_idempotente_con_roles_distintos
    (fun s => if s = "a" then some 1 else if s = "b" then some 2 else none)
    ⟨["Documento", "Fecha"],
      [[Cell.str "1", Cell.str "a"], [Cell.str "1", Cell.str "b"]]⟩
    ⟨["doc_id", "fecha"], [[Cell.str "1", Cell.ts 2]]⟩
    (mkStats 2 1 true) rfl (by decide)

/-- Counterexample for C7 as stated: at the spec's own example headers, the
output headers are the internally renamed working labels, not the input
headers — the renames are never reverted. -/
theorem c7_counterexample :
    columnasDe (procesar_duplicados_optimizado (fun _ => none)
        ⟨["EMPLEADO", "DOCUMENTO", "F_INGRESO", "CARGO"],
          [[Cell.str "Juan P", Cell.str "123456", Cell.str "2023-01-15",
            Cell.str "Ventas"]]⟩)
      = some ["empleado", "doc_id", "fecha", "cargo"] ∧
    (["empleado", "doc_id", "fecha", "cargo"] : List String)
      ≠ ["EMPLEADO", "DOCUMENTO", "F_INGRESO", "CARGO"] :=
  ⟨by decide, by decide⟩

/-- C7 amended: on every successful run the output table has the same number
of columns in the same positions, but its headers are the normalised input
headers with the resolved identity column renamed `doc_id` and, when a date
column was resolved, the resolved date column renamed `fecha`; the internal
renames are not reverted before the table is returned. -/
theorem c7_amended_columnas_transformadas (parse : String → Option Int)
    (df out : DataFrame) (stats : Stats)
    (hok : procesar_duplicados_optimizado parse df = .ok out stats) :
    out.cols.length = df.cols.length ∧
    ∃ cd, buscar_columna (df.cols.map normalizar_nombre_columna)
        nombresDocumento = some cd ∧
      ((stats.fecha_encontrada = true ∧
        ∃ f, buscar_columna (df.cols.map normalizar_nombre_columna)
            nombresFecha = some f ∧
          out.cols = renombrar (renombrar
            (df.cols.map normalizar_nombre_columna) cd "doc_id")
            f "fecha") ∨
       (stats.fecha_encontrada = false ∧
        out.cols = renombrar (df.cols.map normalizar_nombre_columna)
          cd "doc_id")) := by
  cases hbd : buscar_columna (df.cols.map normalizar_nombre_columna)
      nombresDocumento with
  | none =>
    rw [procesar_eq_sin_documento parse df hbd] at hok
    cases hok
  | some cd =>
  by_cases hcd : cd = ""
  · subst hcd
    rw [procesar_eq_sin_documento_vacio parse df hbd] at hok
    cases hok
  cases hbf : buscar_columna (df.cols.map normalizar_nombre_columna)
      nombresFecha with
  | none =>
    rw [procesar_eq_sin_fecha parse df hbd hcd (Or.inl hbf)] at hok
    injection hok with hok1 hok2
    subst hok1
    subst hok2
    refine ⟨?_, cd, rfl, Or.inr ⟨rfl, rfl⟩⟩
    unfold renombrar
    rw [List.length_map, List.length_map]
  | some f =>
  by_cases hff : f = ""
  · subst hff
    rw [procesar_eq_sin_fecha parse df hbd hcd (Or.inr hbf)] at hok
    injection hok with hok1 hok2
    subst hok1
    subst hok2
    refine ⟨?_, cd, rfl, Or.inr ⟨rfl, rfl⟩⟩
    unfold renombrar
    rw [List.length_map, List.length_map]
  by_cases hmem : "fecha" ∈ renombrar (renombrar
      (df.cols.map normalizar_nombre_columna) cd "doc_id") f "fecha"
  · rw [procesar_eq_fecha parse df hbd hcd hbf hff hmem] at hok
    injection hok with hok1 hok2
    subst hok1
    subst hok2
    refine ⟨?_, cd, rfl, Or.inl ⟨rfl, f, rfl, rfl⟩⟩
    unfold renombrar
    rw [List.length_map, List.length_map, List.length_map]
  · rw [procesar_eq_error_fecha parse df hbd hcd hbf hff hmem] at hok
    cases hok

/-- Witness for the amended C7 at the spec's example headers. -/
theorem c7_witness :
    (["empleado", "doc_id", "fecha", "cargo"] : List String).length
      = (["EMPLEADO", "DOCUMENTO", "F_INGRESO", "CARGO"] :
          List String).length :=
  (c7_amended_columnas_transformadas (fun _ => none)
    ⟨["EMPLEADO", "DOCUMENTO", "F_INGRESO", "CARGO"],
      [[Cell.str "Juan P", Cell.str "123456", Cell.str "2023-01-15",
        Cell.str "Ventas"]]⟩
    ⟨["empleado", "doc_id", "fecha", "cargo"],
      [[Cell.str "Juan P", Cell.str "123456", Cell.na, Cell.str "Ventas"]]⟩
    (mkStats 1 1 true) rfl).1
